import Mathlib

/-!
# ContikiMAC framer (`core/net/mac/contikimac/contikimac-framer.c`)

A shallow embedding of the ContikiMAC framer: the five-byte header
(`struct hdr`, packed: `id`, `len`, `tx_offset` (two bytes), `seqno_ind`), the
padding of short frames, the per-neighbour sequence-number cache and the
create / create-and-secure / parse operations of `contikimac_framer`.

The file only builds with `RDC_UNIDIR_SUPPORT` enabled (`create_and_secure`
calls `set_ind_seqno` unconditionally), so the header always carries the
extension fields.

Machine integers are natural numbers; every narrowing conversion of the source
is an explicit `% 2^w`.  The byte order in which the 16-bit field `tx_offset` lies
in memory is the host's and is a parameter (`big_endian`).  Functions return `Option` where the source indexes the
array `sent_seqnos` or moves a pointer backwards: `none` stands for an access
outside the object (undefined behaviour in C).
-/

namespace ContikimacFramer

/-! ## Constants of the source file -/

/-- Tag of this layer's header: `#define CONTIKIMAC_ID 0xCC`. -/
def CONTIKIMAC_ID : Nat := 0xCC

/-- Shortest frame ContikiMAC transmits: `#define SHORTEST_PACKET_SIZE 43`. -/
def SHORTEST_PACKET_SIZE : Nat := 43

/-- Number of slots of `sent_seqnos`: `#define MAX_N_SEQNOS 16`. -/
def MAX_N_SEQNOS : Nat := 16

/-- Size of the packed `struct hdr` with the extension fields:
`id` (1) + `len` (1) + `tx_offset` (2) + `seqno_ind` (1). -/
def sizeof_hdr : Nat := 5

/-- Offset of `id` in `struct hdr`. -/
def off_id : Nat := 0

/-- Offset of `len` in `struct hdr`. -/
def off_len : Nat := 1

/-- Offset of `tx_offset` in `struct hdr` (two bytes). -/
def off_tx_offset : Nat := 2

/-- Offset of `seqno_ind` in `struct hdr`. -/
def off_seqno_ind : Nat := 4

/-- Modelled from the spec: the failure result of a framer operation
(`FRAMER_FAILED` of `framer.h`, which is not among the sources).  The source
only tests results with `< 0`; the value is `-1`. -/
def FRAMER_FAILED : Int := -1

/-! ## Link-layer addresses -/

/-- Modelled from the spec: a neighbour address (`linkaddr_t` of `linkaddr.h`,
not among the sources), as the number its bytes encode. -/
abbrev linkaddr_t := Nat

/-- Modelled from the spec: the all-zero address, which is the destination of
a broadcast frame. -/
def linkaddr_null : linkaddr_t := 0

/-- Modelled from the spec: address comparison (`linkaddr_cmp`), true when the
two addresses are equal. -/
def linkaddr_cmp (a b : linkaddr_t) : Bool := decide (a = b)

/-! ## The frame buffer -/

/-- Modelled from the spec: the frame buffer abstraction (`packetbuf.c` is not
among the sources).  A contiguous byte region `packetbuf` with a movable header
boundary: the header occupies the first `hdrlen` bytes, `bufptr` bytes have been
removed from the front of the data, and `buflen` is the payload length.  The
side table of attributes holds the destination address and the MAC sequence
number. -/
structure Packetbuf where
  /-- Bytes of the region, by offset from its start. -/
  packetbuf : Nat → Nat
  /-- Payload length. -/
  buflen : Nat
  /-- Bytes removed from the front of the data. -/
  bufptr : Nat
  /-- Bytes reserved for headers. -/
  hdrlen : Nat
  /-- Attribute `PACKETBUF_ADDR_RECEIVER`. -/
  addr_receiver : linkaddr_t
  /-- Attribute `PACKETBUF_ATTR_MAC_SEQNO`. -/
  attr_mac_seqno : Nat

/-- Modelled from the spec: capacity of the frame buffer in bytes
(`PACKETBUF_SIZE`, 128 unless configured otherwise). -/
def PACKETBUF_SIZE : Nat := 128

/-- Modelled from the spec: offset of the first header byte
(`packetbuf_hdrptr`). -/
def packetbuf_hdrptr (_pb : Packetbuf) : Nat := 0

/-- Modelled from the spec: number of bytes in front of the data
(`packetbuf_hdrlen`). -/
def packetbuf_hdrlen (pb : Packetbuf) : Nat := pb.bufptr + pb.hdrlen

/-- Modelled from the spec: offset of the first data byte
(`packetbuf_dataptr`). -/
def packetbuf_dataptr (pb : Packetbuf) : Nat := packetbuf_hdrlen pb

/-- Modelled from the spec: the payload length (`packetbuf_datalen`). -/
def packetbuf_datalen (pb : Packetbuf) : Nat := pb.buflen

/-- Modelled from the spec: header length plus payload length
(`packetbuf_totlen`). -/
def packetbuf_totlen (pb : Packetbuf) : Nat := packetbuf_hdrlen pb + packetbuf_datalen pb

/-- Modelled from the spec: set the payload length (`packetbuf_set_datalen`). -/
def packetbuf_set_datalen (pb : Packetbuf) (len : Nat) : Packetbuf :=
  { pb with buflen := len }

/-- Modelled from the spec: reserve `size` header bytes in front of the frame
(`packetbuf_hdralloc`).  Fails with result 0, changing nothing, when the frame
cannot grow; otherwise the frame moves `size` bytes toward the tail and the
result is 1. -/
def packetbuf_hdralloc (pb : Packetbuf) (size : Nat) : Nat × Packetbuf :=
  if size + packetbuf_totlen pb > PACKETBUF_SIZE then (0, pb)
  else
    (1, { pb with
          packetbuf := fun i =>
            if size ≤ i ∧ i < size + packetbuf_totlen pb then pb.packetbuf (i - size)
            else pb.packetbuf i
          hdrlen := pb.hdrlen + size })

/-- Modelled from the spec: remove `size` bytes from the front of the data
(`packetbuf_hdrreduce`).  Fails with result 0, changing nothing, when fewer than
`size` data bytes remain. -/
def packetbuf_hdrreduce (pb : Packetbuf) (size : Nat) : Nat × Packetbuf :=
  if pb.buflen < size then (0, pb)
  else (1, { pb with bufptr := pb.bufptr + size, buflen := pb.buflen - size })

/-- Modelled from the spec: move the data so that it directly follows the
header (`packetbuf_compact`). -/
def packetbuf_compact (pb : Packetbuf) : Packetbuf :=
  if pb.bufptr = 0 then pb
  else
    { pb with
      packetbuf := fun i =>
        if pb.hdrlen ≤ i ∧ i < pb.hdrlen + pb.buflen then pb.packetbuf (pb.bufptr + i)
        else pb.packetbuf i
      bufptr := 0 }

/-- Modelled from the spec: a frame is a broadcast when its destination address
is the null address (`packetbuf_holds_broadcast`). -/
def packetbuf_holds_broadcast (pb : Packetbuf) : Bool :=
  linkaddr_cmp pb.addr_receiver linkaddr_null

/-- Modelled from the spec: write the MAC sequence number attribute
(`packetbuf_set_attr(PACKETBUF_ATTR_MAC_SEQNO, v)`). -/
def packetbuf_set_attr_mac_seqno (pb : Packetbuf) (v : Nat) : Packetbuf :=
  { pb with attr_mac_seqno := v }

/-- Read the byte at offset `a` of the region. -/
def load (pb : Packetbuf) (a : Nat) : Nat := pb.packetbuf a

/-- Write the byte `v` at offset `a` of the region. -/
def store (pb : Packetbuf) (a : Nat) (v : Nat) : Packetbuf :=
  { pb with packetbuf := fun i => if i = a then v else pb.packetbuf i }

/-- The libc call `memset(packetbuf + a, c, n)`. -/
def memset (pb : Packetbuf) (a c n : Nat) : Packetbuf :=
  { pb with packetbuf := fun i => if a ≤ i ∧ i < a + n then c else pb.packetbuf i }

/-- Store the 16-bit value `v` in the two bytes at offsets `a` and `a + 1`, in
the byte order of the host: most significant byte first when `big_endian`,
least significant byte first otherwise.  The source assigns to a `uint16_t`
struct field, so the byte order is the host's. -/
def store16 (big_endian : Bool) (pb : Packetbuf) (a v : Nat) : Packetbuf :=
  if big_endian then store (store pb a (v / 256 % 256)) (a + 1) (v % 256)
  else store (store pb a (v % 256)) (a + 1) (v / 256 % 256)

/-- Read the 16-bit value held by the two bytes at offsets `a` and `a + 1`, in
the byte order of the host. -/
def load16 (big_endian : Bool) (pb : Packetbuf) (a : Nat) : Nat :=
  if big_endian then load pb a * 256 + load pb (a + 1)
  else load pb a + load pb (a + 1) * 256

/-! ## External collaborators -/

/-- The inner framer `DECORATED_FRAMER` (`framer_802154` unless configured
otherwise), an external collaborator: its three operations act on the frame
buffer and are parameters of the development. -/
structure framer where
  /-- Operation `length()`: the inner header length. -/
  length : Packetbuf → Nat
  /-- Operation `create()`: bytes written, or a negative result. -/
  create : Packetbuf → Int × Packetbuf
  /-- Operation `parse()`: bytes consumed, or a negative result. -/
  parse : Packetbuf → Int × Packetbuf

/-- The link-layer security driver `NETSTACK_LLSEC`, an external collaborator:
its hook returns non-zero on success. -/
structure llsec_driver where
  /-- Hook `on_frame_created()`. -/
  on_frame_created : Packetbuf → Int × Packetbuf

/-! ## Sequence-number state (`sent_seqnos`, `seqno_count`, `bcast_seqno`) -/

set_option linter.dupNamespace false in
/-- One slot of the cache: `struct seqno`. -/
structure seqno where
  /-- Neighbour address. -/
  receiver : linkaddr_t
  /-- Last sequence number assigned to that neighbour. -/
  seqno : Nat
deriving DecidableEq, Repr

/-- The static variables of the source file. -/
structure seqno_state where
  /-- Array `sent_seqnos[MAX_N_SEQNOS]`. -/
  sent_seqnos : List seqno
  /-- Number of slots in use (`uint8_t seqno_count`). -/
  seqno_count : Nat
  /-- Next broadcast sequence number (`uint8_t bcast_seqno`). -/
  bcast_seqno : Nat
deriving DecidableEq, Repr

/-- State at start-up: the array is zero-initialised, `seqno_count = 0` and
`bcast_seqno = 1`. -/
def seqno_init : seqno_state :=
  { sent_seqnos := List.replicate MAX_N_SEQNOS { receiver := linkaddr_null, seqno := 0 }
    seqno_count := 0
    bcast_seqno := 1 }

/-- The tracked entries: the first `seqno_count` slots of `sent_seqnos`. -/
def entries (st : seqno_state) : List seqno := st.sent_seqnos.take st.seqno_count

/-! ## Header accessors -/

/-- Source function `set_tx_offset`: pack the wake offset and the
known-receiver flag, `offset | (is_known_receiver << 15)`, and assign the
result to the 16-bit `tx_offset` field of the header at
`packetbuf_hdrptr() + DECORATED_FRAMER.length()`. -/
def set_tx_offset (big_endian : Bool) (F : framer) (offset is_known_receiver : Nat)
    (pb : Packetbuf) : Packetbuf :=
  let offset1 := offset ||| (is_known_receiver <<< 15)
  let chdr := packetbuf_hdrptr pb + F.length pb
  store16 big_endian pb (chdr + off_tx_offset) (offset1 % 65536)

/-- Source function `get_tx_offset`: the pair of the returned offset,
`tx_offset & 0x7FFF`, and the flag written through `is_known_receiver_ret`,
`(tx_offset & 0x8000) >> 15`. -/
def get_tx_offset (big_endian : Bool) (F : framer) (pb : Packetbuf) : Nat × Nat :=
  let chdr := packetbuf_hdrptr pb + F.length pb
  let tx_offset := load16 big_endian pb (chdr + off_tx_offset)
  (tx_offset &&& 0x7FFF, (tx_offset &&& 0x8000) >>> 15)

/-- Source function `set_ind_seqno_hdr`: store `seqno` in the `seqno_ind` field of
the header at `packetbuf_hdrptr() + DECORATED_FRAMER.length()`. -/
def set_ind_seqno_hdr (F : framer) (v : Nat) (pb : Packetbuf) : Packetbuf :=
  let chdr := packetbuf_hdrptr pb + F.length pb
  store pb (chdr + off_seqno_ind) v

/-- Source function `get_ind_seqno`: read the `seqno_ind` field. -/
def get_ind_seqno (F : framer) (pb : Packetbuf) : Nat :=
  let chdr := packetbuf_hdrptr pb + F.length pb
  load pb (chdr + off_seqno_ind)

/-- Source function `replace_seqno`: copy the `seqno_ind` field into the MAC
sequence number attribute. -/
def replace_seqno (F : framer) (pb : Packetbuf) : Packetbuf :=
  let chdr := packetbuf_hdrptr pb + F.length pb
  packetbuf_set_attr_mac_seqno pb (load pb (chdr + off_seqno_ind))

/-! ## Sequence-number assignment -/

/-- The lookup loop of `set_ind_seqno`,
`for(i = 0; i < seqno_count; ++i) if(linkaddr_cmp(receiver, &sent_seqnos[i].receiver)) ...`,
with `fuel` iterations left at index `i`.  Result: `some (some i)` when slot `i`
matches, `some none` when the loop ends without a match, `none` when it
indexes outside the array. -/
def lookup_loop (receiver : linkaddr_t) (sent : List seqno) : Nat → Nat → Option (Option Nat)
  | 0, _ => some none
  | fuel + 1, i =>
    match sent[i]? with
    | none => none
    | some e =>
      if linkaddr_cmp receiver e.receiver then some (some i)
      else lookup_loop receiver sent fuel (i + 1)

/-- The shift loop of `set_ind_seqno`,
`for(i = seqno_count; i > 0; i--) memcpy(&sent_seqnos[i], &sent_seqnos[i-1], ...)`,
started at index `i`; `none` when it indexes outside the array. -/
def shift_loop (sent : List seqno) : Nat → Option (List seqno)
  | 0 => some sent
  | i + 1 =>
    match sent[i]? with
    | none => none
    | some e => if i + 1 < sent.length then shift_loop (sent.set (i + 1) e) i else none

/-- Source function `set_ind_seqno`: assign the indirect sequence number of the
frame in the buffer and write it into the header.  The debugging `printf` is
left out. -/
def set_ind_seqno (F : framer) (s : Packetbuf × seqno_state) : Option (Packetbuf × seqno_state) :=
  let pb := s.1
  let st := s.2
  if packetbuf_holds_broadcast pb then
    -- set_ind_seqno_hdr(bcast_seqno++)
    some (set_ind_seqno_hdr F st.bcast_seqno pb,
          { st with bcast_seqno := (st.bcast_seqno + 1) % 256 })
  else
    match lookup_loop pb.addr_receiver st.sent_seqnos st.seqno_count 0 with
    | none => none
    | some (some i) =>
      match st.sent_seqnos[i]? with
      | none => none
      | some e =>
        -- set_ind_seqno_hdr(++sent_seqnos[i].seqno)
        let v := (e.seqno + 1) % 256
        some (set_ind_seqno_hdr F v pb,
              { st with sent_seqnos := st.sent_seqnos.set i { e with seqno := v } })
    | some none =>
      if st.seqno_count = MAX_N_SEQNOS then
        some (set_ind_seqno_hdr F 1 pb, st)
      else
        match shift_loop st.sent_seqnos st.seqno_count with
        | none => none
        | some [] => none
        | some (e0 :: rest) =>
          -- seqno_count++; sent_seqnos[0].seqno = 1; set_ind_seqno_hdr(sent_seqnos[0].seqno);
          -- linkaddr_copy(&sent_seqnos[0].receiver, receiver)
          let e1 : seqno := { e0 with seqno := 1 }
          let pb1 := set_ind_seqno_hdr F e1.seqno pb
          some (pb1,
                { st with
                  sent_seqnos := { e1 with receiver := pb.addr_receiver } :: rest
                  seqno_count := (st.seqno_count + 1) % 256 })

/-! ## The framer operations -/

/-- Source function `hdr_length`: the inner framer's length plus the size of
`struct hdr`. -/
def hdr_length (F : framer) (pb : Packetbuf) : Nat :=
  F.length pb + sizeof_hdr

/-- Source function `create`: reserve this layer's header, write the tag, a
zero `len` and a zero `tx_offset` (the `seqno_ind` byte is not written), then
let the inner framer add its header.  Result: the combined header length, or
`FRAMER_FAILED`. -/
def create (F : framer) (pb : Packetbuf) : Int × Packetbuf :=
  let r := packetbuf_hdralloc pb sizeof_hdr
  if r.1 = 0 then (FRAMER_FAILED, r.2)
  else
    let chdr := packetbuf_hdrptr r.2
    let pb1 := store r.2 (chdr + off_id) CONTIKIMAC_ID
    let pb2 := store pb1 (chdr + off_len) 0
    let pb3 := store (store pb2 (chdr + off_tx_offset) 0) (chdr + off_tx_offset + 1) 0
    let c := F.create pb3
    if c.1 < 0 then (FRAMER_FAILED, c.2)
    else (c.1 + sizeof_hdr, c.2)

/-- Source function `pad`: when the frame is shorter than
`SHORTEST_PACKET_SIZE`, write zero bytes after the data and count them in the
data length. -/
def pad (pb : Packetbuf) : Packetbuf :=
  let transmit_len := packetbuf_totlen pb
  if transmit_len < SHORTEST_PACKET_SIZE then
    let zeroes_count := (SHORTEST_PACKET_SIZE - transmit_len) % 256
    let ptr := packetbuf_dataptr pb
    let pb1 := memset pb (ptr + packetbuf_datalen pb) 0 zeroes_count
    packetbuf_set_datalen pb1 (packetbuf_datalen pb1 + zeroes_count)
  else pb

/-- Source function `create_and_secure`: `create`, compact, call the security
hook, store the data length in the `len` byte of the header that ends at the
data start, pad, and assign the indirect sequence number.  The result is `none`
when the header pointer `packetbuf_dataptr() - sizeof(struct hdr)` would lie
before the buffer or `set_ind_seqno` indexes outside its array. -/
def create_and_secure (F : framer) (L : llsec_driver) (s : Packetbuf × seqno_state) :
    Option (Int × Packetbuf × seqno_state) :=
  let c := create F s.1
  if c.1 < 0 then some (FRAMER_FAILED, c.2, s.2)
  else
    let pb1 := packetbuf_compact c.2
    let h := L.on_frame_created pb1
    if h.1 = 0 then some (FRAMER_FAILED, h.2, s.2)
    else if packetbuf_dataptr h.2 < sizeof_hdr then none
    else
      let chdr := packetbuf_dataptr h.2 - sizeof_hdr
      let pb2 := store h.2 (chdr + off_len) (packetbuf_datalen h.2 % 256)
      let pb3 := pad pb2
      match set_ind_seqno F (pb3, s.2) with
      | none => none
      | some (pb4, st1) => some (c.1, pb4, st1)

/-- Source function `parse`: let the inner framer parse, check the tag, remove
this layer's header, restore the data length from the `len` byte and clear that
byte.  Result: the combined header length, or `FRAMER_FAILED`. -/
def parse (F : framer) (pb : Packetbuf) : Int × Packetbuf :=
  let p := F.parse pb
  if p.1 < 0 then (FRAMER_FAILED, p.2)
  else
    let chdr := packetbuf_dataptr p.2
    if load p.2 (chdr + off_id) ≠ CONTIKIMAC_ID then (FRAMER_FAILED, p.2)
    else
      let r := packetbuf_hdrreduce p.2 sizeof_hdr
      if r.1 = 0 then (FRAMER_FAILED, r.2)
      else
        let pb1 := packetbuf_set_datalen r.2 (load r.2 (chdr + off_len))
        let pb2 := store pb1 (chdr + off_len) 0
        (p.1 + sizeof_hdr, pb2)

/-! ## Notions used in the statements -/

/-- A sequence of `set_ind_seqno` calls, one per frame of the list, threading the
sequence-number state; the result lists the frames as the calls left them. -/
def run_set_ind_seqno (F : framer) : List Packetbuf → seqno_state →
    Option (List Packetbuf × seqno_state)
  | [], st => some ([], st)
  | pb :: pbs, st =>
    match set_ind_seqno F (pb, st) with
    | none => none
    | some (pb1, st1) =>
      match run_set_ind_seqno F pbs st1 with
      | none => none
      | some (outs, st2) => some (pb1 :: outs, st2)

/-- No tracked slot before index `k` holds the address `r`. -/
def no_match_before (st : seqno_state) (r : linkaddr_t) (k : Nat) : Prop :=
  ∀ j, j < k → ∀ e, st.sent_seqnos[j]? = some e → e.receiver ≠ r

/-- Representation invariant of the static variables: the array has
`MAX_N_SEQNOS` slots and at most that many are in use. -/
def seqno_wf (st : seqno_state) : Prop :=
  st.sent_seqnos.length = MAX_N_SEQNOS ∧ st.seqno_count ≤ MAX_N_SEQNOS

/-- Invariant of the sequence-number state: well-formed, no address tracked
twice, every tracked counter an 8-bit value. -/
def seqno_inv (st : seqno_state) : Prop :=
  seqno_wf st ∧ ((entries st).map seqno.receiver).Nodup ∧ ∀ e ∈ entries st, e.seqno < 256

/-- The payload of a frame: its `buflen` data bytes from the data start. -/
def payload (pb : Packetbuf) : List Nat :=
  (List.range pb.buflen).map (fun i => load pb (packetbuf_dataptr pb + i))

/-- The frame that `create` hands to the inner framer once header space is
reserved: this layer's header lies at the front with the tag, a zero `len` and
a zero `tx_offset` written. -/
def hdr_written (pb : Packetbuf) : Packetbuf :=
  let r := packetbuf_hdralloc pb sizeof_hdr
  let chdr := packetbuf_hdrptr r.2
  let pb1 := store r.2 (chdr + off_id) CONTIKIMAC_ID
  let pb2 := store pb1 (chdr + off_len) 0
  store (store pb2 (chdr + off_tx_offset) 0) (chdr + off_tx_offset + 1) 0

/-- The inner framer's `create` put `n` bytes in front of the frame `pb`,
giving `pb1`: the header grew by `n` and the bytes of `pb` lie `n` bytes
further. -/
def prepends (n : Nat) (pb pb1 : Packetbuf) : Prop :=
  pb1.hdrlen = pb.hdrlen + n ∧ pb1.bufptr = pb.bufptr ∧ pb1.buflen = pb.buflen ∧
  ∀ i, i < packetbuf_totlen pb → pb1.packetbuf (n + i) = pb.packetbuf i

/-- An inner framer without header: `length()` is 0, `create()` and `parse()`
succeed and leave the frame as it is. -/
def framer_none : framer :=
  { length := fun _ => 0
    create := fun pb => (0, pb)
    parse := fun pb => (0, pb) }

/-- An inner framer with a three-byte header (bytes 1, 2, 3) whose `length()`
nevertheless reports `len`. -/
def framer_three (len : Nat) : framer :=
  { length := fun _ => len
    create := fun pb =>
      let r := packetbuf_hdralloc pb 3
      if r.1 = 0 then (FRAMER_FAILED, r.2)
      else (3, store (store (store r.2 0 1) 1 2) 2 3)
    parse := fun pb =>
      let r := packetbuf_hdrreduce pb 3
      if r.1 = 0 then (FRAMER_FAILED, r.2) else (3, r.2) }

/-- An inner framer whose `create` always fails. -/
def framer_failing : framer :=
  { length := fun _ => 0
    create := fun pb => (FRAMER_FAILED, pb)
    parse := fun pb => (FRAMER_FAILED, pb) }

/-- The link-layer security driver that does nothing (`nullsec`): the hook
succeeds and leaves the frame as it is. -/
def nullsec : llsec_driver :=
  { on_frame_created := fun pb => (1, pb) }

/-- A link-layer security driver whose hook always reports failure. -/
def llsec_failing : llsec_driver :=
  { on_frame_created := fun pb => (0, pb) }

/-- An empty frame addressed to `r`, in a zeroed buffer. -/
def frame_to (r : linkaddr_t) : Packetbuf :=
  { packetbuf := fun _ => 0, buflen := 0, bufptr := 0, hdrlen := 0,
    addr_receiver := r, attr_mac_seqno := 0 }

/-- A fresh outgoing frame that holds the bytes `data` as payload and is
addressed to `r`. -/
def frame_with (data : List Nat) (r : linkaddr_t) : Packetbuf :=
  { packetbuf := fun i => data.getD i 0, buflen := data.length, bufptr := 0, hdrlen := 0,
    addr_receiver := r, attr_mac_seqno := 0 }

/-- A ten-byte payload 9, 8, ..., 0 addressed to neighbour 7. -/
def ten_bytes : Packetbuf := frame_with [9, 8, 7, 6, 5, 4, 3, 2, 1, 0] 7

/-- A frame with a two-byte header in front of ten payload bytes, as the
configuration without the extension fields would build it. -/
def ten_bytes_short_header : Packetbuf :=
  { packetbuf := fun i => (([0xCC, 10, 9, 8, 7, 6, 5, 4, 3, 2, 1, 0] : List Nat)).getD i 0
    buflen := 10, bufptr := 0, hdrlen := 2, addr_receiver := 7, attr_mac_seqno := 0 }

/-- A frame whose payload of 125 bytes leaves no room for this layer's header
in the buffer of 128 bytes. -/
def full_frame : Packetbuf := frame_with (List.replicate 125 0) 7

/-- A received five-byte frame that consists of this layer's header alone, with
tag `0xCC` and the `len` byte 200. -/
def lying_frame : Packetbuf := frame_with [0xCC, 200, 0, 0, 0] 0

/-- The received copy of `tx` in a buffer that is zero after the frame. -/
def received_frame (tx : Packetbuf) : Packetbuf :=
  { packetbuf := fun i =>
      if i < packetbuf_totlen tx then tx.packetbuf (packetbuf_hdrptr tx + i) else 0
    buflen := packetbuf_totlen tx, bufptr := 0, hdrlen := 0,
    addr_receiver := tx.addr_receiver, attr_mac_seqno := 0 }

/-- A state with two tracked neighbours, 5 (counter 9) and 6 (counter 255). -/
def two_tracked : seqno_state :=
  { sent_seqnos := { receiver := 5, seqno := 9 } :: { receiver := 6, seqno := 255 } ::
      List.replicate 14 { receiver := linkaddr_null, seqno := 0 }
    seqno_count := 2
    bcast_seqno := 1 }

/-- Seventeen empty frames addressed to the neighbours 1, 2, ..., 17. -/
def seventeen_frames : List Packetbuf := (List.range 17).map (fun i => frame_to (i + 1))

/-! # Theorems -/

/-! ## The loops of `set_ind_seqno` -/

theorem lookup_loop_total (r : linkaddr_t) (sent : List seqno) :
    ∀ (fuel i : Nat), i + fuel ≤ sent.length → ∃ res, lookup_loop r sent fuel i = some res := by
  intro fuel
  induction fuel with
  | zero => intro i _; exact ⟨none, rfl⟩
  | succ n ih =>
    intro i h
    have hi : i < sent.length := by omega
    simp only [lookup_loop, List.getElem?_eq_getElem hi]
    by_cases hc : linkaddr_cmp r sent[i].receiver = true
    · exact ⟨some i, by simp [hc]⟩
    · obtain ⟨res, hres⟩ := ih (i + 1) (by omega)
      exact ⟨res, by simp [hc, hres]⟩

theorem lookup_loop_notfound (r : linkaddr_t) (sent : List seqno) :
    ∀ (fuel i : Nat), lookup_loop r sent fuel i = some none →
      ∀ j, i ≤ j → j < i + fuel → ∀ e, sent[j]? = some e → e.receiver ≠ r := by
  intro fuel
  induction fuel with
  | zero => intro i _ j h1 h2; omega
  | succ n ih =>
    intro i h j h1 h2 e he
    simp only [lookup_loop] at h
    cases hs : sent[i]? with
    | none => simp [hs] at h
    | some e0 =>
      simp only [hs] at h
      by_cases hc : linkaddr_cmp r e0.receiver = true
      · simp [hc] at h
      · simp only [hc] at h
        by_cases hj : j = i
        · subst hj
          rw [hs] at he
          cases he
          intro heq
          apply hc
          simp [linkaddr_cmp, heq]
        · exact ih (i + 1) (by simpa using h) j (by omega) (by omega) e he

theorem lookup_loop_found (r : linkaddr_t) (sent : List seqno) :
    ∀ (fuel i k : Nat), lookup_loop r sent fuel i = some (some k) →
      i ≤ k ∧ k < i + fuel ∧ (∃ e, sent[k]? = some e ∧ e.receiver = r) ∧
      ∀ j, i ≤ j → j < k → ∀ e, sent[j]? = some e → e.receiver ≠ r := by
  intro fuel
  induction fuel with
  | zero => intro i k h; simp [lookup_loop] at h
  | succ n ih =>
    intro i k h
    simp only [lookup_loop] at h
    cases hs : sent[i]? with
    | none => simp [hs] at h
    | some e0 =>
      simp only [hs] at h
      by_cases hc : linkaddr_cmp r e0.receiver = true
      · simp only [hc, if_true, Option.some.injEq] at h
        subst h
        refine ⟨le_refl _, by omega, ⟨e0, hs, ?_⟩, ?_⟩
        · simpa [linkaddr_cmp, eq_comm] using hc
        · intro j h1 h2; omega
      · simp only [hc] at h
        obtain ⟨a, b, c, d⟩ := ih (i + 1) k (by simpa using h)
        refine ⟨by omega, by omega, c, ?_⟩
        intro j h1 h2 e he
        by_cases hj : j = i
        · subst hj
          rw [hs] at he
          cases he
          intro heq
          apply hc
          simp [linkaddr_cmp, heq]
        · exact d j (by omega) h2 e he

theorem lookup_loop_match (r : linkaddr_t) (sent : List seqno) :
    ∀ (fuel i k : Nat) (e : seqno), i ≤ k → k < i + fuel → sent[k]? = some e → e.receiver = r →
      (∀ j, i ≤ j → j < k → ∀ e1, sent[j]? = some e1 → e1.receiver ≠ r) →
      lookup_loop r sent fuel i = some (some k) := by
  intro fuel
  induction fuel with
  | zero => intro i k e h1 h2; omega
  | succ n ih =>
    intro i k e h1 h2 he hr hfirst
    have hklen : k < sent.length := (List.getElem?_eq_some.1 he).1
    have hi : i < sent.length := by omega
    simp only [lookup_loop, List.getElem?_eq_getElem hi]
    by_cases hik : i = k
    · subst hik
      have : sent[i] = e := by
        have := List.getElem?_eq_getElem hi
        rw [he] at this
        exact (Option.some.inj this).symm
      simp [this, linkaddr_cmp, hr]
    · have hne : sent[i].receiver ≠ r :=
        hfirst i (le_refl _) (by omega) _ (List.getElem?_eq_getElem hi)
      have hc : linkaddr_cmp r sent[i].receiver = false := by
        simp [linkaddr_cmp, Ne.symm hne]
      simp only [hc]
      exact ih (i + 1) k e (by omega) (by omega) he hr
        (fun j hj1 hj2 => hfirst j (by omega) hj2)

theorem take_set_of_le (a : seqno) {n m : Nat} (l : List seqno) (h : m ≤ n) :
    (l.set n a).take m = l.take m :=
  List.ext_getElem? fun i => by
    rw [List.getElem?_take, List.getElem?_take]
    split
    · rw [List.getElem?_set_ne (by omega)]
    · rfl

theorem shift_loop_eq : ∀ (i : Nat) (sent : List seqno), i < sent.length →
    shift_loop sent i = some (sent.take 1 ++ sent.take i ++ sent.drop (i + 1)) := by
  intro i
  induction i with
  | zero => intro sent _; simp [shift_loop, ← List.drop_one]
  | succ k ih =>
    intro sent h
    have hk : k < sent.length := by omega
    simp only [shift_loop, List.getElem?_eq_getElem hk, h, if_true]
    rw [ih _ (by simpa using hk)]
    congr 1
    rw [take_set_of_le _ _ (by omega), take_set_of_le _ _ (by omega)]
    rw [List.drop_eq_getElem_cons (by simpa using h), List.getElem_set_self,
      List.drop_set_of_lt _ _ (by omega)]
    rw [List.take_succ (n := k), List.getElem?_eq_getElem hk]
    simp only [Option.toList, List.append_assoc, List.singleton_append]

theorem take_one_eq : ∀ (l : List seqno) (h : 0 < l.length), l.take 1 = [l[0]]
  | [], h => by simp at h
  | a :: t, _ => by simp

/-! ## The four outcomes of `set_ind_seqno` -/

theorem set_ind_seqno_broadcast (F : framer) (pb : Packetbuf) (st : seqno_state)
    (hb : packetbuf_holds_broadcast pb = true) :
    set_ind_seqno F (pb, st) =
      some (set_ind_seqno_hdr F st.bcast_seqno pb,
            { st with bcast_seqno := (st.bcast_seqno + 1) % 256 }) := by
  simp [set_ind_seqno, hb]

theorem set_ind_seqno_existing (F : framer) (pb : Packetbuf) (st : seqno_state)
    (hb : packetbuf_holds_broadcast pb = false) (k : Nat) (e : seqno)
    (hk : k < st.seqno_count) (he : st.sent_seqnos[k]? = some e)
    (hr : e.receiver = pb.addr_receiver) (hfirst : no_match_before st pb.addr_receiver k) :
    set_ind_seqno F (pb, st) =
      some (set_ind_seqno_hdr F ((e.seqno + 1) % 256) pb,
            { st with sent_seqnos := st.sent_seqnos.set k { e with seqno := (e.seqno + 1) % 256 } }) := by
  have hres := lookup_loop_match pb.addr_receiver st.sent_seqnos st.seqno_count 0 k e
    (Nat.zero_le _) (by omega) he hr (fun j _ hj => hfirst j hj)
  simp [set_ind_seqno, hb, hres, he]

theorem set_ind_seqno_full (F : framer) (pb : Packetbuf) (st : seqno_state)
    (hlen : st.seqno_count ≤ st.sent_seqnos.length)
    (hb : packetbuf_holds_broadcast pb = false)
    (hno : no_match_before st pb.addr_receiver st.seqno_count)
    (hfull : st.seqno_count = MAX_N_SEQNOS) :
    set_ind_seqno F (pb, st) = some (set_ind_seqno_hdr F 1 pb, st) := by
  obtain ⟨res, hres⟩ := lookup_loop_total pb.addr_receiver st.sent_seqnos st.seqno_count 0
    (by omega)
  cases res with
  | some k1 =>
    obtain ⟨_, h2, ⟨e1, he1, hr1⟩, _⟩ := lookup_loop_found _ _ _ _ _ hres
    exact absurd hr1 (hno k1 (by omega) e1 he1)
  | none =>
    simp only [set_ind_seqno, hb, hres]
    simp [hfull]

theorem set_ind_seqno_new (F : framer) (pb : Packetbuf) (st : seqno_state)
    (hlen : st.sent_seqnos.length = MAX_N_SEQNOS)
    (hb : packetbuf_holds_broadcast pb = false)
    (hno : no_match_before st pb.addr_receiver st.seqno_count)
    (hroom : st.seqno_count < MAX_N_SEQNOS) :
    set_ind_seqno F (pb, st) =
      some (set_ind_seqno_hdr F 1 pb,
            { st with
              sent_seqnos := { receiver := pb.addr_receiver, seqno := 1 } ::
                (st.sent_seqnos.take st.seqno_count ++ st.sent_seqnos.drop (st.seqno_count + 1))
              seqno_count := st.seqno_count + 1 }) := by
  obtain ⟨res, hres⟩ := lookup_loop_total pb.addr_receiver st.sent_seqnos st.seqno_count 0
    (by omega)
  cases res with
  | some k1 =>
    obtain ⟨_, h2, ⟨e1, he1, hr1⟩, _⟩ := lookup_loop_found _ _ _ _ _ hres
    exact absurd hr1 (hno k1 (by omega) e1 he1)
  | none =>
    have hlt : st.seqno_count < st.sent_seqnos.length := by omega
    have h0 : 0 < st.sent_seqnos.length := by omega
    have hne : st.seqno_count ≠ MAX_N_SEQNOS := by omega
    have hmod : (st.seqno_count + 1) % 256 = st.seqno_count + 1 := by
      apply Nat.mod_eq_of_lt
      unfold MAX_N_SEQNOS at hroom
      omega
    have htake : st.sent_seqnos.take 1 = [st.sent_seqnos[0]] := take_one_eq _ h0
    simp only [set_ind_seqno, hb, hres, hne, shift_loop_eq _ _ hlt, htake, hmod]
    simp

theorem no_match_before_of_entries (st : seqno_state) (r : linkaddr_t)
    (h : ∀ e ∈ entries st, e.receiver ≠ r) : no_match_before st r st.seqno_count := by
  intro j hj e he
  apply h
  apply List.getElem?_mem (n := j)
  simp only [entries]
  rw [List.getElem?_take_of_lt hj]
  exact he

theorem entries_of_no_match_before (st : seqno_state) (r : linkaddr_t)
    (h : no_match_before st r st.seqno_count) : ∀ e ∈ entries st, e.receiver ≠ r := by
  intro e he
  obtain ⟨n, hn⟩ := List.getElem?_of_mem he
  simp only [entries, List.getElem?_take] at hn
  split at hn
  · next hlt => exact h n hlt e hn
  · cases hn

theorem entries_set (st : seqno_state) (k : Nat) (e : seqno) :
    entries { st with sent_seqnos := st.sent_seqnos.set k e } = (entries st).set k e := by
  simp [entries, List.set_take]

theorem entries_new (st : seqno_state) (e : seqno) (h : st.seqno_count ≤ st.sent_seqnos.length) :
    entries { st with
      sent_seqnos := e ::
        (st.sent_seqnos.take st.seqno_count ++ st.sent_seqnos.drop (st.seqno_count + 1))
      seqno_count := st.seqno_count + 1 } = e :: entries st := by
  simp only [entries, List.take_succ_cons]
  rw [List.take_left' (by simp [h])]

/-- The four ways a call of `set_ind_seqno` can go on a well-formed state. -/
theorem set_ind_seqno_cases (F : framer) (pb : Packetbuf) (st : seqno_state) (hwf : seqno_wf st) :
    (packetbuf_holds_broadcast pb = true ∧
      set_ind_seqno F (pb, st) =
        some (set_ind_seqno_hdr F st.bcast_seqno pb,
              { st with bcast_seqno := (st.bcast_seqno + 1) % 256 })) ∨
    (packetbuf_holds_broadcast pb = false ∧
      ∃ k e, k < st.seqno_count ∧ st.sent_seqnos[k]? = some e ∧
        e.receiver = pb.addr_receiver ∧ no_match_before st pb.addr_receiver k ∧
        set_ind_seqno F (pb, st) =
          some (set_ind_seqno_hdr F ((e.seqno + 1) % 256) pb,
                { st with sent_seqnos :=
                    st.sent_seqnos.set k { e with seqno := (e.seqno + 1) % 256 } })) ∨
    (packetbuf_holds_broadcast pb = false ∧
      no_match_before st pb.addr_receiver st.seqno_count ∧ st.seqno_count = MAX_N_SEQNOS ∧
      set_ind_seqno F (pb, st) = some (set_ind_seqno_hdr F 1 pb, st)) ∨
    (packetbuf_holds_broadcast pb = false ∧
      no_match_before st pb.addr_receiver st.seqno_count ∧ st.seqno_count < MAX_N_SEQNOS ∧
      set_ind_seqno F (pb, st) =
        some (set_ind_seqno_hdr F 1 pb,
              { st with
                sent_seqnos := { receiver := pb.addr_receiver, seqno := 1 } ::
                  (st.sent_seqnos.take st.seqno_count ++
                    st.sent_seqnos.drop (st.seqno_count + 1))
                seqno_count := st.seqno_count + 1 })) := by
  obtain ⟨hlen, hcnt⟩ := hwf
  cases hb : packetbuf_holds_broadcast pb with
  | true => exact Or.inl ⟨rfl, set_ind_seqno_broadcast F pb st hb⟩
  | false =>
    right
    obtain ⟨res, hres⟩ := lookup_loop_total pb.addr_receiver st.sent_seqnos st.seqno_count 0
      (by omega)
    cases res with
    | some k =>
      obtain ⟨_, h2, ⟨e, he, hr⟩, h4⟩ := lookup_loop_found _ _ _ _ _ hres
      have hfirst : no_match_before st pb.addr_receiver k :=
        fun j hj e1 he1 => h4 j (Nat.zero_le _) hj e1 he1
      exact Or.inl ⟨rfl, k, e, by omega, he, hr, hfirst,
        set_ind_seqno_existing F pb st hb k e (by omega) he hr hfirst⟩
    | none =>
      right
      have hno : no_match_before st pb.addr_receiver st.seqno_count :=
        fun j hj e1 he1 => lookup_loop_notfound _ _ _ _ hres j (Nat.zero_le _) (by omega) e1 he1
      by_cases hfull : st.seqno_count = MAX_N_SEQNOS
      · exact Or.inl ⟨rfl, hno, hfull, set_ind_seqno_full F pb st (by omega) hb hno hfull⟩
      · exact Or.inr ⟨rfl, hno, by omega,
          set_ind_seqno_new F pb st hlen hb hno (by omega)⟩

/-! ## The invariant of the sequence-number state -/

theorem seqno_inv_init : seqno_inv seqno_init := by
  refine ⟨⟨by simp [seqno_init], by simp [seqno_init]⟩, ?_, ?_⟩ <;> simp [entries, seqno_init]

theorem seqno_inv_step (F : framer) (pb : Packetbuf) (st : seqno_state) (h : seqno_inv st) :
    ∃ pb1 st1, set_ind_seqno F (pb, st) = some (pb1, st1) ∧ seqno_inv st1 := by
  obtain ⟨hwf, hnd, hlt⟩ := h
  rcases set_ind_seqno_cases F pb st hwf with
    ⟨_, hres⟩ | ⟨_, k, e, hk, he, hr, _, hres⟩ | ⟨_, _, _, hres⟩ | ⟨_, hno, hroom, hres⟩
  · exact ⟨_, _, hres, hwf, hnd, hlt⟩
  · refine ⟨_, _, hres, ⟨by simpa using hwf.1, hwf.2⟩, ?_, ?_⟩
    · rw [entries_set, List.map_set]
      have hk1 : (entries st)[k]? = some e := by
        simp only [entries]; rw [List.getElem?_take_of_lt hk]; exact he
      have : ((entries st).map seqno.receiver).set k e.receiver =
          (entries st).map seqno.receiver := by
        apply List.ext_getElem?
        intro i
        by_cases hik : k = i
        · subst hik
          rw [List.getElem?_set]
          simp [hk1]
          exact (List.getElem?_eq_some.1 hk1).1
        · rw [List.getElem?_set_ne hik]
      simpa [this] using hnd
    · rw [entries_set]
      intro e1 he1
      rcases List.mem_or_eq_of_mem_set he1 with h1 | h1
      · exact hlt e1 h1
      · subst h1; exact Nat.mod_lt _ (by norm_num)
  · exact ⟨_, _, hres, hwf, hnd, hlt⟩
  · refine ⟨_, _, hres, ⟨?_, ?_⟩, ?_, ?_⟩
    · have h1 := hwf.1
      simp only [List.length_cons, List.length_append, List.length_take, List.length_drop]
      omega
    · show st.seqno_count + 1 ≤ MAX_N_SEQNOS
      omega
    · rw [entries_new _ _ (by have := hwf.1; omega)]
      simp only [List.map_cons, List.nodup_cons]
      refine ⟨?_, hnd⟩
      intro hmem
      obtain ⟨e1, he1, hr1⟩ := List.mem_map.1 hmem
      exact entries_of_no_match_before st _ hno e1 he1 hr1
    · rw [entries_new _ _ (by have := hwf.1; omega)]
      intro e1 he1
      rcases List.mem_cons.1 he1 with h1 | h1
      · subst h1; norm_num
      · exact hlt e1 h1

theorem seqno_inv_run (F : framer) : ∀ (pbs : List Packetbuf) (st : seqno_state), seqno_inv st →
    ∃ outs st1, run_set_ind_seqno F pbs st = some (outs, st1) ∧ seqno_inv st1
  | [], st, h => ⟨[], st, rfl, h⟩
  | pb :: pbs, st, h => by
    obtain ⟨pb1, st1, h1, hinv1⟩ := seqno_inv_step F pb st h
    obtain ⟨outs, st2, h2, hinv2⟩ := seqno_inv_run F pbs st1 hinv1
    exact ⟨pb1 :: outs, st2, by simp [run_set_ind_seqno, h1, h2], hinv2⟩

/-! ## Claims about the sequence-number cache -/

theorem run_broadcast (F : framer) : ∀ (pbs : List Packetbuf) (st : seqno_state),
    (∀ pb ∈ pbs, packetbuf_holds_broadcast pb = true) → st.bcast_seqno < 256 →
    ∃ outs, run_set_ind_seqno F pbs st =
        some (outs, { st with bcast_seqno := (st.bcast_seqno + pbs.length) % 256 }) ∧
      outs.length = pbs.length ∧
      ∀ k pb, pbs[k]? = some pb →
        outs[k]? = some (set_ind_seqno_hdr F ((st.bcast_seqno + k) % 256) pb)
  | [], st, _, hlt => ⟨[], by simp [run_set_ind_seqno, Nat.mod_eq_of_lt hlt], rfl, by simp⟩
  | pb :: pbs, st, hb, hlt => by
    have h1 := set_ind_seqno_broadcast F pb st (hb pb (by simp))
    obtain ⟨outs, h2, h3, h4⟩ := run_broadcast F pbs
      { st with bcast_seqno := (st.bcast_seqno + 1) % 256 }
      (fun p hp => hb p (by simp [hp])) (Nat.mod_lt _ (by norm_num))
    simp only at h2 h4
    refine ⟨set_ind_seqno_hdr F st.bcast_seqno pb :: outs, ?_, by simp [h3], ?_⟩
    · simp only [run_set_ind_seqno, h1, h2, List.length_cons]
      congr 3
      simp only [Nat.mod_add_mod]
      congr 1
      omega
    · intro k p hk
      cases k with
      | zero =>
        simp only [List.getElem?_cons_zero, Option.some.injEq] at hk
        subst hk
        simp [Nat.mod_eq_of_lt hlt]
      | succ j =>
        simp only [List.getElem?_cons_succ] at hk
        rw [List.getElem?_cons_succ, h4 j p hk]
        simp only [Nat.mod_add_mod]
        congr 3
        omega

/-- C6: from the initial state, any number of consecutive `set_ind_seqno` calls
on broadcast frames all succeed; call number `k` (counted from 0) writes
`(1 + k) % 256` into the header, so the values are 1, 2, ..., 255, 0, 1, ...;
the final state is the initial one with only `bcast_seqno` advanced, so the
per-neighbour slots and `seqno_count` never change. -/
theorem broadcast_counter (F : framer) (pbs : List Packetbuf)
    (hb : ∀ pb ∈ pbs, packetbuf_holds_broadcast pb = true) :
    ∃ outs, run_set_ind_seqno F pbs seqno_init =
        some (outs, { seqno_init with bcast_seqno := (1 + pbs.length) % 256 }) ∧
      outs.length = pbs.length ∧
      ∀ k pb, pbs[k]? = some pb → outs[k]? = some (set_ind_seqno_hdr F ((1 + k) % 256) pb) :=
  run_broadcast F pbs seqno_init hb (by simp [seqno_init])

theorem broadcast_counter_witness :
    (∀ pb ∈ [frame_to 0, frame_to 0, frame_to 0], packetbuf_holds_broadcast pb = true) ∧
    ∃ outs, run_set_ind_seqno framer_none [frame_to 0, frame_to 0, frame_to 0] seqno_init =
        some (outs, { seqno_init with
          bcast_seqno := (1 + [frame_to 0, frame_to 0, frame_to 0].length) % 256 }) ∧
      outs.length = [frame_to 0, frame_to 0, frame_to 0].length ∧
      ∀ k pb, [frame_to 0, frame_to 0, frame_to 0][k]? = some pb →
        outs[k]? = some (set_ind_seqno_hdr framer_none ((1 + k) % 256) pb) :=
  ⟨by simp [packetbuf_holds_broadcast, frame_to, linkaddr_cmp, linkaddr_null],
   broadcast_counter framer_none [frame_to 0, frame_to 0, frame_to 0]
     (by simp [packetbuf_holds_broadcast, frame_to, linkaddr_cmp, linkaddr_null])⟩

/-- C9: every sequence of `set_ind_seqno` calls from the initial state
succeeds, and in the state it reaches no two of the first `seqno_count` slots
hold the same neighbour address. -/
theorem tracked_addresses_unique (F : framer) (pbs : List Packetbuf) :
    ∃ outs st, run_set_ind_seqno F pbs seqno_init = some (outs, st) ∧
      ((entries st).map seqno.receiver).Nodup := by
  obtain ⟨outs, st, h, _, h2, _⟩ := seqno_inv_run F pbs seqno_init seqno_inv_init
  exact ⟨outs, st, h, h2⟩

set_option maxRecDepth 1000000 in
/-- C10, refuted as stated: 256 sends to neighbour 7 from the initial state
leave the tracked entry of neighbour 7 with counter 0. -/
theorem tracked_counter_reaches_zero :
    (run_set_ind_seqno framer_none (List.replicate 256 (frame_to 7)) seqno_init).map
      (fun r => entries r.2) = some [{ receiver := 7, seqno := 0 }] := by
  decide

/-- C10, amended: every sequence of `set_ind_seqno` calls from the initial
state succeeds, and in the state it reaches every tracked counter lies in
0..255. -/
theorem tracked_counter_range (F : framer) (pbs : List Packetbuf) :
    ∃ outs st, run_set_ind_seqno F pbs seqno_init = some (outs, st) ∧
      ∀ e ∈ entries st, e.seqno ≤ 255 := by
  obtain ⟨outs, st, h, _, _, h3⟩ := seqno_inv_run F pbs seqno_init seqno_inv_init
  exact ⟨outs, st, h, fun e he => Nat.lt_succ_iff.1 (h3 e he)⟩

theorem insert_new_neighbour (F : framer) (pb : Packetbuf) (st : seqno_state)
    (hlen : st.sent_seqnos.length = MAX_N_SEQNOS) (hroom : st.seqno_count < MAX_N_SEQNOS)
    (hb : packetbuf_holds_broadcast pb = false)
    (hno : ∀ e ∈ entries st, e.receiver ≠ pb.addr_receiver) :
    ∃ st1, set_ind_seqno F (pb, st) = some (set_ind_seqno_hdr F 1 pb, st1) ∧
      entries st1 = { receiver := pb.addr_receiver, seqno := 1 } :: entries st ∧
      (∀ j e, (entries st)[j]? = some e → (entries st1)[j + 1]? = some e) ∧
      st1.seqno_count = st.seqno_count + 1 ∧
      st1.sent_seqnos.length = MAX_N_SEQNOS ∧
      st1.bcast_seqno = st.bcast_seqno := by
  have h := set_ind_seqno_new F pb st hlen hb (no_match_before_of_entries st _ hno) hroom
  have he := entries_new st { receiver := pb.addr_receiver, seqno := 1 } (by omega)
  refine ⟨_, h, he, ?_, rfl, ?_, rfl⟩
  · intro j e hj
    rw [he]
    simpa using hj
  · simp only [List.length_cons, List.length_append, List.length_take, List.length_drop]
    omega

/-- C8: on a state whose array has its 16 slots and fewer than 16 of them in
use, a call for a non-broadcast address that no tracked entry holds succeeds,
writes 1 into the header, puts the entry (address, 1) at position 0 in front
of the previous entries, which keep their order, addresses and counters one
position further, and raises `seqno_count` by exactly one. -/
theorem new_neighbour_insertion (F : framer) (pb : Packetbuf) (st : seqno_state)
    (hlen : st.sent_seqnos.length = MAX_N_SEQNOS) (hroom : st.seqno_count < MAX_N_SEQNOS)
    (hb : packetbuf_holds_broadcast pb = false)
    (hno : ∀ e ∈ entries st, e.receiver ≠ pb.addr_receiver) :
    ∃ st1, set_ind_seqno F (pb, st) = some (set_ind_seqno_hdr F 1 pb, st1) ∧
      entries st1 = { receiver := pb.addr_receiver, seqno := 1 } :: entries st ∧
      (∀ j e, (entries st)[j]? = some e → (entries st1)[j + 1]? = some e) ∧
      st1.seqno_count = st.seqno_count + 1 ∧
      st1.sent_seqnos.length = MAX_N_SEQNOS ∧
      st1.bcast_seqno = st.bcast_seqno :=
  insert_new_neighbour F pb st hlen hroom hb hno

theorem new_neighbour_insertion_witness :
    two_tracked.sent_seqnos.length = MAX_N_SEQNOS ∧ two_tracked.seqno_count < MAX_N_SEQNOS ∧
    packetbuf_holds_broadcast (frame_to 7) = false ∧
    (∀ e ∈ entries two_tracked, e.receiver ≠ (frame_to 7).addr_receiver) ∧
    ∃ st1, set_ind_seqno framer_none (frame_to 7, two_tracked) =
        some (set_ind_seqno_hdr framer_none 1 (frame_to 7), st1) ∧
      entries st1 = { receiver := (frame_to 7).addr_receiver, seqno := 1 } :: entries two_tracked ∧
      (∀ j e, (entries two_tracked)[j]? = some e → (entries st1)[j + 1]? = some e) ∧
      st1.seqno_count = two_tracked.seqno_count + 1 ∧
      st1.sent_seqnos.length = MAX_N_SEQNOS ∧
      st1.bcast_seqno = two_tracked.bcast_seqno :=
  ⟨by decide, by decide, by decide, by decide,
   new_neighbour_insertion framer_none (frame_to 7) two_tracked
     (by decide) (by decide) (by decide) (by decide)⟩

theorem run_cons (F : framer) (pb : Packetbuf) (pbs : List Packetbuf) (st st1 st2 : seqno_state)
    (pb1 : Packetbuf) (outs : List Packetbuf)
    (h1 : set_ind_seqno F (pb, st) = some (pb1, st1))
    (h2 : run_set_ind_seqno F pbs st1 = some (outs, st2)) :
    run_set_ind_seqno F (pb :: pbs) st = some (pb1 :: outs, st2) := by
  simp [run_set_ind_seqno, h1, h2]

/-- C7: on any state, a call for a non-broadcast address whose first matching
tracked entry is at position `k` succeeds, replaces that entry's counter `c` by
the 8-bit increment `(c + 1) % 256`, writes that value into the header and
leaves the entry's position and address, every other entry, `seqno_count` and
`bcast_seqno` as they were.  In particular, from a state with room for two more
neighbours, two sends to a new neighbour write 1 then 2, and a following send
to another unseen neighbour writes 1 and leaves the first one's counter at 2. -/
theorem existing_neighbour (F : framer) (pb : Packetbuf) (st : seqno_state) (k : Nat) (e : seqno)
    (pa1 pa2 pb3 : Packetbuf) (st0 : seqno_state)
    (hb : packetbuf_holds_broadcast pb = false)
    (hk : (entries st)[k]? = some e) (hr : e.receiver = pb.addr_receiver)
    (hfirst : ∀ j, j < k → ∀ e1, (entries st)[j]? = some e1 → e1.receiver ≠ pb.addr_receiver)
    (hlen0 : st0.sent_seqnos.length = MAX_N_SEQNOS) (hroom0 : st0.seqno_count + 1 < MAX_N_SEQNOS)
    (hba : packetbuf_holds_broadcast pa1 = false) (hbb : packetbuf_holds_broadcast pb3 = false)
    (hsame : pa2.addr_receiver = pa1.addr_receiver)
    (hdiff : pb3.addr_receiver ≠ pa1.addr_receiver)
    (hnewa : ∀ e1 ∈ entries st0, e1.receiver ≠ pa1.addr_receiver)
    (hnewb : ∀ e1 ∈ entries st0, e1.receiver ≠ pb3.addr_receiver) :
    (∃ st1, set_ind_seqno F (pb, st) =
        some (set_ind_seqno_hdr F ((e.seqno + 1) % 256) pb, st1) ∧
      entries st1 = (entries st).set k { e with seqno := (e.seqno + 1) % 256 } ∧
      (∀ j, j ≠ k → (entries st1)[j]? = (entries st)[j]?) ∧
      st1.seqno_count = st.seqno_count ∧
      st1.sent_seqnos.length = st.sent_seqnos.length ∧
      st1.bcast_seqno = st.bcast_seqno) ∧
    (∃ st3, run_set_ind_seqno F [pa1, pa2, pb3] st0 =
        some ([set_ind_seqno_hdr F 1 pa1, set_ind_seqno_hdr F 2 pa2, set_ind_seqno_hdr F 1 pb3],
              st3) ∧
      entries st3 = { receiver := pb3.addr_receiver, seqno := 1 } ::
        { receiver := pa1.addr_receiver, seqno := 2 } :: entries st0) := by
  constructor
  · have hkc : k < st.seqno_count := by
      have := (List.getElem?_eq_some.1 hk).1
      simp only [entries, List.length_take] at this
      omega
    have he : st.sent_seqnos[k]? = some e := by
      simp only [entries] at hk
      rwa [List.getElem?_take_of_lt hkc] at hk
    have hf : no_match_before st pb.addr_receiver k := by
      intro j hj e1 he1
      apply hfirst j hj e1
      simp only [entries]
      rwa [List.getElem?_take_of_lt (by omega)]
    refine ⟨_, set_ind_seqno_existing F pb st hb k e hkc he hr hf, entries_set st k _, ?_, rfl,
      by simp, rfl⟩
    intro j hj
    rw [entries_set, List.getElem?_set_ne (Ne.symm hj)]
  · obtain ⟨s1, h1, e1, _, c1, l1, _⟩ :=
      insert_new_neighbour F pa1 st0 hlen0 (by omega) hba hnewa
    have hba2 : packetbuf_holds_broadcast pa2 = false := by
      simpa [packetbuf_holds_broadcast, hsame] using hba
    have h2 := set_ind_seqno_existing F pa2 s1 hba2 0
      { receiver := pa1.addr_receiver, seqno := 1 } (by omega)
      (by
        have : (entries s1)[0]? = some { receiver := pa1.addr_receiver, seqno := 1 } := by
          rw [e1]; simp
        simp only [entries] at this
        rwa [List.getElem?_take_of_lt (by omega)] at this)
      hsame.symm (fun j hj => absurd hj (Nat.not_lt_zero j))
    have e2 := entries_set s1 0 { receiver := pa1.addr_receiver, seqno := (1 + 1) % 256 }
    rw [e1] at e2
    simp only [List.set_cons_zero] at e2
    obtain ⟨s3, h3, e3, _⟩ := insert_new_neighbour F pb3
      { s1 with sent_seqnos :=
          s1.sent_seqnos.set 0 { receiver := pa1.addr_receiver, seqno := (1 + 1) % 256 } }
      (by simpa using l1) (by show s1.seqno_count < MAX_N_SEQNOS; omega) hbb
      (by
        rw [e2]
        intro x hx
        rcases List.mem_cons.1 hx with hx1 | hx1
        · subst hx1; exact Ne.symm hdiff
        · exact hnewb x hx1)
    refine ⟨s3, ?_, ?_⟩
    · exact run_cons F _ _ _ _ _ _ _ h1 (run_cons F _ _ _ _ _ _ _ h2
        (run_cons F _ _ _ _ _ _ _ h3 rfl))
    · rw [e3, e2]

theorem existing_neighbour_witness :
    packetbuf_holds_broadcast (frame_to 6) = false ∧
    (entries two_tracked)[1]? = some { receiver := 6, seqno := 255 } ∧
    (∀ j, j < 1 → ∀ e1, (entries two_tracked)[j]? = some e1 →
      e1.receiver ≠ (frame_to 6).addr_receiver) ∧
    seqno_init.sent_seqnos.length = MAX_N_SEQNOS ∧ seqno_init.seqno_count + 1 < MAX_N_SEQNOS ∧
    (frame_to 8).addr_receiver ≠ (frame_to 7).addr_receiver ∧
    ((∃ st1, set_ind_seqno framer_none (frame_to 6, two_tracked) =
        some (set_ind_seqno_hdr framer_none ((255 + 1) % 256) (frame_to 6), st1) ∧
      entries st1 = (entries two_tracked).set 1 { receiver := 6, seqno := (255 + 1) % 256 } ∧
      (∀ j, j ≠ 1 → (entries st1)[j]? = (entries two_tracked)[j]?) ∧
      st1.seqno_count = two_tracked.seqno_count ∧
      st1.sent_seqnos.length = two_tracked.sent_seqnos.length ∧
      st1.bcast_seqno = two_tracked.bcast_seqno) ∧
    (∃ st3, run_set_ind_seqno framer_none [frame_to 7, frame_to 7, frame_to 8] seqno_init =
        some ([set_ind_seqno_hdr framer_none 1 (frame_to 7),
               set_ind_seqno_hdr framer_none 2 (frame_to 7),
               set_ind_seqno_hdr framer_none 1 (frame_to 8)], st3) ∧
      entries st3 = { receiver := (frame_to 8).addr_receiver, seqno := 1 } ::
        { receiver := (frame_to 7).addr_receiver, seqno := 2 } :: entries seqno_init)) :=
  have hfirst : ∀ j, j < 1 → ∀ e1, (entries two_tracked)[j]? = some e1 →
      e1.receiver ≠ (frame_to 6).addr_receiver := by
    intro j hj e1 h1
    have hj0 : j = 0 := by omega
    subst hj0
    have h2 : some ({ receiver := 5, seqno := 9 } : seqno) = some e1 := h1
    cases h2
    decide
  ⟨by decide, by decide, hfirst, by decide, by decide, by decide,
   existing_neighbour framer_none (frame_to 6) two_tracked 1 { receiver := 6, seqno := 255 }
     (frame_to 7) (frame_to 7) (frame_to 8) seqno_init
     (by decide) (by decide) rfl hfirst (by decide) (by decide) (by decide) (by decide) rfl
     (by decide) (by decide) (by decide)⟩

theorem run_new_neighbours (F : framer) : ∀ (pbs : List Packetbuf) (st : seqno_state),
    st.sent_seqnos.length = MAX_N_SEQNOS → st.seqno_count + pbs.length ≤ MAX_N_SEQNOS →
    (∀ pb ∈ pbs, packetbuf_holds_broadcast pb = false) →
    (pbs.map Packetbuf.addr_receiver).Nodup →
    (∀ pb ∈ pbs, ∀ e ∈ entries st, e.receiver ≠ pb.addr_receiver) →
    ∃ st1, run_set_ind_seqno F pbs st = some (pbs.map (set_ind_seqno_hdr F 1), st1) ∧
      entries st1 =
        (pbs.map (fun pb => ({ receiver := pb.addr_receiver, seqno := 1 } : seqno))).reverse ++
          entries st ∧
      st1.seqno_count = st.seqno_count + pbs.length ∧
      st1.sent_seqnos.length = MAX_N_SEQNOS
  | [], st, hlen, _, _, _, _ => ⟨st, rfl, by simp, rfl, hlen⟩
  | pb :: pbs, st, hlen, hroom, hb, hnd, hnew => by
    simp only [List.length_cons] at hroom
    simp only [List.map_cons, List.nodup_cons, List.mem_map, not_exists, not_and] at hnd
    obtain ⟨s1, h1, e1, _, c1, l1, _⟩ := insert_new_neighbour F pb st hlen (by omega)
      (hb pb (by simp)) (hnew pb (by simp))
    obtain ⟨s2, h2, e2, c2, l2⟩ := run_new_neighbours F pbs s1 l1 (by omega)
      (fun p hp => hb p (by simp [hp])) hnd.2
      (by
        intro p hp x hx
        rw [e1] at hx
        rcases List.mem_cons.1 hx with hx1 | hx1
        · subst hx1
          exact fun heq => hnd.1 p hp heq.symm
        · exact hnew p (by simp [hp]) x hx1)
    refine ⟨s2, run_cons F _ _ _ _ _ _ _ h1 h2, ?_, by simp only [List.length_cons]; omega, l2⟩
    rw [e2, e1]
    simp

theorem run_append (F : framer) : ∀ (l1 l2 : List Packetbuf) (st s1 s2 : seqno_state)
    (o1 o2 : List Packetbuf), run_set_ind_seqno F l1 st = some (o1, s1) →
    run_set_ind_seqno F l2 s1 = some (o2, s2) →
    run_set_ind_seqno F (l1 ++ l2) st = some (o1 ++ o2, s2)
  | [], l2, st, s1, s2, o1, o2, h1, h2 => by
    simp only [run_set_ind_seqno, Option.some.injEq, Prod.mk.injEq] at h1
    obtain ⟨rfl, rfl⟩ := h1
    simpa using h2
  | pb :: l1, l2, st, s1, s2, o1, o2, h1, h2 => by
    simp only [run_set_ind_seqno] at h1
    cases hs : set_ind_seqno F (pb, st) with
    | none => simp [hs] at h1
    | some r =>
      obtain ⟨pb1, sa⟩ := r
      simp only [hs] at h1
      cases hr : run_set_ind_seqno F l1 sa with
      | none => simp [hr] at h1
      | some r1 =>
        obtain ⟨oa, sb⟩ := r1
        simp only [hr, Option.some.injEq, Prod.mk.injEq] at h1
        obtain ⟨rfl, rfl⟩ := h1
        have := run_append F l1 l2 sa sb s2 oa o2 hr h2
        simp [run_set_ind_seqno, hs, this]

/-- C5: from the initial state, calls for 17 frames with pairwise distinct
non-broadcast destinations all succeed and each writes 1; the state after the
16th call already is the final state, with `seqno_count = 16` and the first 16
neighbours tracked (most recent first, counter 1), so the 17th call changed
nothing.  In that state every call for a non-broadcast address that no tracked
entry holds writes 1 and leaves the state unchanged, and a call for one of the
first 16 neighbours writes that neighbour's previous counter plus one, which is
2, and stores it in the neighbour's entry. -/
theorem seqno_cache_capacity (F : framer) (pbs : List Packetbuf) (hlen : pbs.length = 17)
    (hb : ∀ pb ∈ pbs, packetbuf_holds_broadcast pb = false)
    (hnd : (pbs.map Packetbuf.addr_receiver).Nodup) :
    ∃ st,
      run_set_ind_seqno F (pbs.take 16) seqno_init =
        some ((pbs.take 16).map (set_ind_seqno_hdr F 1), st) ∧
      run_set_ind_seqno F pbs seqno_init = some (pbs.map (set_ind_seqno_hdr F 1), st) ∧
      st.seqno_count = 16 ∧
      entries st =
        ((pbs.take 16).map
          (fun pb => ({ receiver := pb.addr_receiver, seqno := 1 } : seqno))).reverse ∧
      (∀ pb, packetbuf_holds_broadcast pb = false →
        (∀ e ∈ entries st, e.receiver ≠ pb.addr_receiver) →
        set_ind_seqno F (pb, st) = some (set_ind_seqno_hdr F 1 pb, st)) ∧
      (∀ pb, pb.addr_receiver ∈ (pbs.take 16).map Packetbuf.addr_receiver →
        ∃ k st1, (entries st)[k]? = some { receiver := pb.addr_receiver, seqno := 1 } ∧
          set_ind_seqno F (pb, st) = some (set_ind_seqno_hdr F 2 pb, st1) ∧
          entries st1 = (entries st).set k { receiver := pb.addr_receiver, seqno := 2 } ∧
          st1.seqno_count = 16) := by
  have hsplit : pbs = pbs.take 16 ++ pbs.drop 16 := (List.take_append_drop 16 pbs).symm
  have hnd2 := hnd
  rw [hsplit, List.map_append, List.nodup_append] at hnd2
  obtain ⟨hnd16, _, hdisj⟩ := hnd2
  have hlen16 : (pbs.take 16).length = 16 := by simp [hlen]
  obtain ⟨st, hrun, hent, hcnt, hl⟩ := run_new_neighbours F (pbs.take 16) seqno_init
    (by simp [seqno_init]) (by simp [seqno_init, MAX_N_SEQNOS, hlen])
    (fun p hp => hb p (List.mem_of_mem_take hp)) hnd16
    (by intro p _ e he; simp [entries, seqno_init] at he)
  have hent2 : entries st = ((pbs.take 16).map
      (fun pb => ({ receiver := pb.addr_receiver, seqno := 1 } : seqno))).reverse := by
    rw [hent]; simp [entries, seqno_init]
  have hcnt2 : st.seqno_count = 16 := by
    rw [hcnt, hlen16]; simp [seqno_init]
  have hfullcall : ∀ pb, packetbuf_holds_broadcast pb = false →
      (∀ e ∈ entries st, e.receiver ≠ pb.addr_receiver) →
      set_ind_seqno F (pb, st) = some (set_ind_seqno_hdr F 1 pb, st) := by
    intro pb hbp hno
    exact set_ind_seqno_full F pb st (by rw [hl, hcnt2]; decide) hbp
      (no_match_before_of_entries st _ hno) hcnt2
  have hmem : ∀ e, e ∈ entries st ↔
      e.seqno = 1 ∧ e.receiver ∈ (pbs.take 16).map Packetbuf.addr_receiver := by
    intro e
    rw [hent2]
    simp only [List.mem_reverse, List.mem_map]
    constructor
    · rintro ⟨p, hp, rfl⟩
      exact ⟨rfl, p, hp, rfl⟩
    · rintro ⟨h1, p, hp, h2⟩
      refine ⟨p, hp, ?_⟩
      cases e with
      | mk r s =>
        simp only at h1 h2
        rw [h1, h2]
  refine ⟨st, hrun, ?_, hcnt2, hent2, hfullcall, ?_⟩
  · -- the 17th call
    obtain ⟨x, hx⟩ : ∃ x, pbs.drop 16 = [x] := by
      have h1 : (pbs.drop 16).length = 1 := by simp [hlen]
      match hd : pbs.drop 16, h1 with
      | [x], _ => exact ⟨x, rfl⟩
    have hxmem : x ∈ pbs := by
      have : x ∈ pbs.drop 16 := by simp [hx]
      exact List.mem_of_mem_drop this
    have hxnew : ∀ e ∈ entries st, e.receiver ≠ x.addr_receiver := by
      intro e he heq
      have h2 := ((hmem e).1 he).2
      exact hdisj h2 (by rw [hx, heq]; simp)
    have h17 := hfullcall x (hb x hxmem) hxnew
    have := run_append F (pbs.take 16) [x] seqno_init st st _ [set_ind_seqno_hdr F 1 x] hrun
      (run_cons F _ _ _ _ _ _ _ h17 rfl)
    rw [← hx, ← hsplit] at this
    rw [this]
    congr 2
    conv_rhs => rw [hsplit, List.map_append, hx]
    simp
  · intro pb hpb
    have hbp : packetbuf_holds_broadcast pb = false := by
      obtain ⟨p, hp, hpr⟩ := List.mem_map.1 hpb
      have := hb p (List.mem_of_mem_take hp)
      simpa [packetbuf_holds_broadcast, hpr] using this
    have hin : ({ receiver := pb.addr_receiver, seqno := 1 } : seqno) ∈ entries st :=
      (hmem _).2 ⟨rfl, hpb⟩
    rcases set_ind_seqno_cases F pb st ⟨hl, by rw [hcnt2]; decide⟩ with
      ⟨h1, _⟩ | ⟨_, k, e, hk, he, hr, _, hres⟩ | ⟨_, hno, _, _⟩ | ⟨_, hno, _, _⟩
    · rw [hbp] at h1; cases h1
    · have hke : (entries st)[k]? = some e := by
        simp only [entries]; rw [List.getElem?_take_of_lt hk]; exact he
      have hes : e.seqno = 1 := ((hmem e).1 (List.getElem?_mem hke)).1
      have heq : e = { receiver := pb.addr_receiver, seqno := 1 } := by
        cases e with
        | mk r s =>
          simp only at hes hr
          rw [hes, hr]
      subst heq
      exact ⟨k, _, hke, hres, entries_set st k _, hcnt2⟩
    · exact absurd rfl (entries_of_no_match_before st _ hno _ hin)
    · exact absurd rfl (entries_of_no_match_before st _ hno _ hin)

theorem seqno_cache_capacity_witness :
    seventeen_frames.length = 17 ∧
    (∀ pb ∈ seventeen_frames, packetbuf_holds_broadcast pb = false) ∧
    (seventeen_frames.map Packetbuf.addr_receiver).Nodup ∧
    ∃ st,
      run_set_ind_seqno framer_none (seventeen_frames.take 16) seqno_init =
        some ((seventeen_frames.take 16).map (set_ind_seqno_hdr framer_none 1), st) ∧
      run_set_ind_seqno framer_none seventeen_frames seqno_init =
        some (seventeen_frames.map (set_ind_seqno_hdr framer_none 1), st) ∧
      st.seqno_count = 16 ∧
      entries st =
        ((seventeen_frames.take 16).map
          (fun pb => ({ receiver := pb.addr_receiver, seqno := 1 } : seqno))).reverse ∧
      (∀ pb, packetbuf_holds_broadcast pb = false →
        (∀ e ∈ entries st, e.receiver ≠ pb.addr_receiver) →
        set_ind_seqno framer_none (pb, st) = some (set_ind_seqno_hdr framer_none 1 pb, st)) ∧
      (∀ pb, pb.addr_receiver ∈ (seventeen_frames.take 16).map Packetbuf.addr_receiver →
        ∃ k st1, (entries st)[k]? = some { receiver := pb.addr_receiver, seqno := 1 } ∧
          set_ind_seqno framer_none (pb, st) =
            some (set_ind_seqno_hdr framer_none 2 pb, st1) ∧
          entries st1 = (entries st).set k { receiver := pb.addr_receiver, seqno := 2 } ∧
          st1.seqno_count = 16) :=
  ⟨by decide, by decide, by decide,
   seqno_cache_capacity framer_none seventeen_frames (by decide) (by decide) (by decide)⟩

/-! ## Padding and tag check -/

theorem pad_effect (pb : Packetbuf) :
    (SHORTEST_PACKET_SIZE ≤ packetbuf_totlen pb → pad pb = pb) ∧
    (packetbuf_totlen pb < SHORTEST_PACKET_SIZE →
      packetbuf_datalen (pad pb) =
        packetbuf_datalen pb + (SHORTEST_PACKET_SIZE - packetbuf_totlen pb) ∧
      packetbuf_totlen (pad pb) = SHORTEST_PACKET_SIZE ∧
      packetbuf_hdrlen (pad pb) = packetbuf_hdrlen pb ∧
      (pad pb).hdrlen = pb.hdrlen ∧ (pad pb).bufptr = pb.bufptr ∧
      (pad pb).addr_receiver = pb.addr_receiver ∧
      (pad pb).attr_mac_seqno = pb.attr_mac_seqno ∧
      (∀ i, packetbuf_dataptr pb + packetbuf_datalen pb ≤ i →
        i < packetbuf_dataptr pb + packetbuf_datalen pb +
          (SHORTEST_PACKET_SIZE - packetbuf_totlen pb) → load (pad pb) i = 0) ∧
      (∀ i, i < packetbuf_dataptr pb + packetbuf_datalen pb → load (pad pb) i = load pb i) ∧
      (∀ i, packetbuf_dataptr pb + packetbuf_datalen pb +
          (SHORTEST_PACKET_SIZE - packetbuf_totlen pb) ≤ i → load (pad pb) i = load pb i)) := by
  constructor
  · intro h
    simp [pad, Nat.not_lt.2 h]
  · intro h
    have hz : (SHORTEST_PACKET_SIZE - packetbuf_totlen pb) % 256 =
        SHORTEST_PACKET_SIZE - packetbuf_totlen pb := by
      apply Nat.mod_eq_of_lt
      unfold SHORTEST_PACKET_SIZE
      omega
    simp only [pad, h, if_true, hz]
    simp only [packetbuf_set_datalen, packetbuf_datalen, memset, packetbuf_totlen,
      packetbuf_hdrlen, packetbuf_dataptr, load] at *
    refine ⟨trivial, by omega, trivial, trivial, trivial, trivial, trivial, ?_, ?_, ?_⟩
    · intro i h1 h2
      simp [h1, h2]
    · intro i h1
      simp [Nat.not_le.2 h1]
    · intro i h1
      have : ¬ i < pb.bufptr + pb.hdrlen + pb.buflen +
          (SHORTEST_PACKET_SIZE - (pb.bufptr + pb.hdrlen + pb.buflen)) := by omega
      simp [this]

/-- C2: `pad` leaves a frame whose total length is at least
`SHORTEST_PACKET_SIZE` (43) unchanged; on a shorter frame it writes exactly
`43 - total` zero bytes right after the existing payload, raises the data
length by that amount so that the total length is exactly 43, and changes no
other byte (so neither the header bytes nor the original payload bytes), nor
the header boundary, nor the attributes. -/
theorem pad_spec (pb : Packetbuf) :
    (SHORTEST_PACKET_SIZE ≤ packetbuf_totlen pb → pad pb = pb) ∧
    (packetbuf_totlen pb < SHORTEST_PACKET_SIZE →
      packetbuf_datalen (pad pb) =
        packetbuf_datalen pb + (SHORTEST_PACKET_SIZE - packetbuf_totlen pb) ∧
      packetbuf_totlen (pad pb) = SHORTEST_PACKET_SIZE ∧
      packetbuf_hdrlen (pad pb) = packetbuf_hdrlen pb ∧
      (pad pb).hdrlen = pb.hdrlen ∧ (pad pb).bufptr = pb.bufptr ∧
      (pad pb).addr_receiver = pb.addr_receiver ∧
      (pad pb).attr_mac_seqno = pb.attr_mac_seqno ∧
      (∀ i, packetbuf_dataptr pb + packetbuf_datalen pb ≤ i →
        i < packetbuf_dataptr pb + packetbuf_datalen pb +
          (SHORTEST_PACKET_SIZE - packetbuf_totlen pb) → load (pad pb) i = 0) ∧
      (∀ i, i < packetbuf_dataptr pb + packetbuf_datalen pb → load (pad pb) i = load pb i) ∧
      (∀ i, packetbuf_dataptr pb + packetbuf_datalen pb +
          (SHORTEST_PACKET_SIZE - packetbuf_totlen pb) ≤ i → load (pad pb) i = load pb i)) :=
  pad_effect pb

theorem pad_spec_witness :
    packetbuf_totlen (frame_with [1, 2, 3] 7) < SHORTEST_PACKET_SIZE ∧
    packetbuf_datalen (pad (frame_with [1, 2, 3] 7)) = 3 + 40 ∧
    packetbuf_totlen (pad (frame_with [1, 2, 3] 7)) = SHORTEST_PACKET_SIZE ∧
    load (pad (frame_with [1, 2, 3] 7)) 2 = 3 ∧
    load (pad (frame_with [1, 2, 3] 7)) 42 = 0 :=
  have h : packetbuf_totlen (frame_with [1, 2, 3] 7) < SHORTEST_PACKET_SIZE := by decide
  ⟨h, ((pad_spec (frame_with [1, 2, 3] 7)).2 h).1, ((pad_spec (frame_with [1, 2, 3] 7)).2 h).2.1,
   by decide, by decide⟩

/-- C4: when the inner framer's `parse` succeeds and the first remaining byte
is not the tag `0xCC`, `parse` returns `FRAMER_FAILED` and the frame buffer
(header boundary, data pointer, data length, bytes and attributes) is exactly
as the inner `parse` left it. -/
theorem parse_bad_tag (F : framer) (pb : Packetbuf) (hinner : 0 ≤ (F.parse pb).1)
    (htag : load (F.parse pb).2 (packetbuf_dataptr (F.parse pb).2) ≠ CONTIKIMAC_ID) :
    parse F pb = (FRAMER_FAILED, (F.parse pb).2) := by
  have h1 : ¬ (F.parse pb).1 < 0 := not_lt.2 hinner
  simp only [parse, h1, if_false, off_id, Nat.add_zero]
  simp [htag]

theorem parse_bad_tag_witness :
    0 ≤ ((framer_three 3).parse (frame_with [1, 2, 3, 0xAB, 7] 0)).1 ∧
    load ((framer_three 3).parse (frame_with [1, 2, 3, 0xAB, 7] 0)).2
      (packetbuf_dataptr ((framer_three 3).parse (frame_with [1, 2, 3, 0xAB, 7] 0)).2) ≠
        CONTIKIMAC_ID ∧
    parse (framer_three 3) (frame_with [1, 2, 3, 0xAB, 7] 0) =
      (FRAMER_FAILED, ((framer_three 3).parse (frame_with [1, 2, 3, 0xAB, 7] 0)).2) :=
  ⟨by decide, by decide,
   parse_bad_tag (framer_three 3) (frame_with [1, 2, 3, 0xAB, 7] 0) (by decide) (by decide)⟩

/-! ## The finalized length -/

theorem load_store_ne (pb : Packetbuf) (a b v : Nat) (h : b ≠ a) :
    load (store pb a v) b = load pb b := by
  simp [load, store, h]

theorem load_store_eq (pb : Packetbuf) (a v : Nat) : load (store pb a v) a = v := by
  simp [load, store]

theorem set_ind_seqno_total (F : framer) (pb : Packetbuf) (st : seqno_state)
    (hwf : seqno_wf st) :
    ∃ v st1, set_ind_seqno F (pb, st) = some (set_ind_seqno_hdr F v pb, st1) := by
  rcases set_ind_seqno_cases F pb st hwf with
    ⟨_, h⟩ | ⟨_, _, _, _, _, _, _, h⟩ | ⟨_, _, _, h⟩ | ⟨_, _, _, h⟩
  all_goals exact ⟨_, _, h⟩

theorem framer_three_create (len : Nat) (pb : Packetbuf)
    (h : 3 + packetbuf_totlen pb ≤ PACKETBUF_SIZE) :
    ((framer_three len).create pb).1 = (3 : Nat) ∧ prepends 3 pb ((framer_three len).create pb).2 := by
  have h1 : ¬ (3 + packetbuf_totlen pb > PACKETBUF_SIZE) := by omega
  simp only [framer_three, packetbuf_hdralloc, h1, if_false, one_ne_zero]
  refine ⟨rfl, rfl, rfl, rfl, ?_⟩
  intro i hi
  simp only [store]
  have a1 : ¬ (3 + i = 2) := by omega
  have a2 : ¬ (3 + i = 1) := by omega
  have a3 : ¬ (3 + i = 0) := by omega
  have a4 : 3 ≤ 3 + i ∧ 3 + i < 3 + packetbuf_totlen pb := by omega
  simp only [a1, a2, a3, if_false, if_pos a4, Nat.add_sub_cancel_left]

set_option maxRecDepth 100000 in
/-- C11, refuted as stated: a ten-byte payload sent through `create_and_secure`
with an inner framer that adds no bytes gives a frame of 43 bytes in all, not
45. -/
theorem scenario_frame_is_not_45_bytes :
    (create_and_secure framer_none nullsec (ten_bytes, seqno_init)).map
      (fun r => (packetbuf_totlen r.2.1, decide (packetbuf_totlen r.2.1 = 45))) =
      some (43, false) := by
  decide

set_option maxRecDepth 100000 in
/-- C11, amended: a ten-byte payload sent through `create_and_secure` with the
minimum size 43, this layer's five-byte header (the extension fields are always
compiled in) and an inner framer that adds no bytes gives result 5 and a frame
of 43 bytes in all: the five-byte header and 38 bytes after it, the payload and
28 zero bytes; its `len` byte is 10, and `parse` on the received frame gives
result 5 and the ten-byte payload.  Padding counts the header in the minimum
size, so a frame with a two-byte header and ten payload bytes is padded to 43
bytes in all as well. -/
theorem scenario_ten_bytes :
    (create_and_secure framer_none nullsec (ten_bytes, seqno_init)).map
      (fun r => (r.1, packetbuf_hdrlen r.2.1, packetbuf_datalen r.2.1, packetbuf_totlen r.2.1)) =
      some (5, 5, 38, 43) ∧
    (create_and_secure framer_none nullsec (ten_bytes, seqno_init)).map
      (fun r => (load r.2.1 off_len, (payload r.2.1).drop 10)) =
      some (10, List.replicate 28 0) ∧
    (create_and_secure framer_none nullsec (ten_bytes, seqno_init)).map
      (fun r => ((parse framer_none (received_frame r.2.1)).1,
        packetbuf_datalen (parse framer_none (received_frame r.2.1)).2,
        payload (parse framer_none (received_frame r.2.1)).2)) =
      some (5, 10, [9, 8, 7, 6, 5, 4, 3, 2, 1, 0]) ∧
    packetbuf_totlen (pad ten_bytes_short_header) = 43 ∧
    packetbuf_datalen (pad ten_bytes_short_header) = 41 := by
  refine ⟨by decide, by decide, by decide, by decide, by decide⟩

/-! ## The wake-offset and indirect-sequence accessors -/

theorem tx_word (offset flag : Nat) (ho : offset ≤ 32767) (hf : flag ≤ 1) :
    (offset ||| (flag <<< 15)) % 65536 = offset + flag * 32768 := by
  have hlt : offset < 2 ^ 15 := by norm_num; omega
  rcases Nat.le_one_iff_eq_zero_or_eq_one.1 hf with h | h
  · subst h
    simp only [Nat.zero_shiftLeft, Nat.or_zero, Nat.zero_mul, Nat.add_zero]
    exact Nat.mod_eq_of_lt (by omega)
  · subst h
    have h1 : (1 : Nat) <<< 15 = 2 ^ 15 * 1 := by rw [Nat.one_shiftLeft, Nat.mul_one]
    rw [h1, Nat.or_comm, ← Nat.mul_add_lt_is_or hlt 1]
    norm_num
    omega

theorem and_7fff (v : Nat) : v &&& 0x7FFF = v % 32768 :=
  Nat.and_pow_two_sub_one_eq_mod v 15

theorem and_8000_shift (v : Nat) : (v &&& 0x8000) >>> 15 = v / 32768 % 2 := by
  have h := Nat.and_two_pow v 15
  have h2 : (0x8000 : Nat) = 2 ^ 15 := by norm_num
  rw [h2, h, Nat.shiftRight_eq_div_pow, Nat.mul_div_cancel _ (by norm_num), Nat.toNat_testBit]

theorem load16_store16 (be : Bool) (pb : Packetbuf) (a v : Nat) (hv : v < 65536) :
    load16 be (store16 be pb a v) a = v := by
  cases be
  · simp only [load16, store16, load, store, Bool.false_eq_true, if_false]
    simp
    omega
  · simp only [load16, store16, load, store, if_true]
    simp
    omega

/-- C12: for every offset in 0..32767 and every flag in {0, 1}, on either byte
order, `get_tx_offset` after `set_tx_offset(offset, flag)` on the same frame
returns exactly that offset and reports exactly that flag; the inner
`length()`, an external function called by both accessors, reports the same
value at both calls. -/
theorem tx_offset_round_trip (be : Bool) (F : framer) (pb : Packetbuf) (offset flag : Nat)
    (ho : offset ≤ 32767) (hf : flag ≤ 1)
    (hlen : F.length (set_tx_offset be F offset flag pb) = F.length pb) :
    get_tx_offset be F (set_tx_offset be F offset flag pb) = (offset, flag) := by
  have hw := tx_word offset flag ho hf
  have hv : offset + flag * 32768 < 65536 := by omega
  simp only [get_tx_offset, hlen, packetbuf_hdrptr]
  simp only [set_tx_offset, packetbuf_hdrptr, hw, load16_store16 be pb _ _ hv, and_7fff,
    and_8000_shift]
  congr 1 <;> omega

theorem tx_offset_round_trip_witness :
    32767 ≤ 32767 ∧ 1 ≤ 1 ∧
    framer_none.length (set_tx_offset false framer_none 32767 1 (frame_to 7)) =
      framer_none.length (frame_to 7) ∧
    get_tx_offset false framer_none (set_tx_offset false framer_none 32767 1 (frame_to 7)) =
      (32767, 1) :=
  ⟨by decide, by decide, rfl,
   tx_offset_round_trip false framer_none (frame_to 7) 32767 1 (by decide) (by decide) rfl⟩
/-- C16, refuted as stated: on a little-endian host, after
`set_tx_offset(0x0102, 1)` the byte that follows the `len` byte is `0x02`, the
low byte of the offset, and the next one is `0x81`, the flag with the high
offset bits; the big-endian encoding would put `0x81` first. -/
theorem tx_offset_low_byte_first :
    load (set_tx_offset false framer_none 0x0102 1 (frame_to 7)) (off_len + 1) = 0x02 ∧
    load (set_tx_offset false framer_none 0x0102 1 (frame_to 7)) (off_len + 2) = 0x81 ∧
    load (set_tx_offset false framer_none 0x0102 1 (frame_to 7)) (off_len + 1) ≠
      1 * 128 + 0x0102 / 256 := by
  decide

theorem load_store16_first (be : Bool) (pb : Packetbuf) (a v : Nat) :
    load (store16 be pb a v) a = if be then v / 256 % 256 else v % 256 := by
  cases be <;> simp [store16, load, store]

theorem load_store16_second (be : Bool) (pb : Packetbuf) (a v : Nat) :
    load (store16 be pb a v) (a + 1) = if be then v % 256 else v / 256 % 256 := by
  cases be <;> simp [store16, load, store]

theorem load_store16_other (be : Bool) (pb : Packetbuf) (a v b : Nat) (h1 : b ≠ a)
    (h2 : b ≠ a + 1) : load (store16 be pb a v) b = load pb b := by
  cases be <;> simp [store16, load, store, h1, h2]

/-- C16, amended: `set_tx_offset` stores the 16-bit field in the two bytes that
follow the `len` byte in the byte order of the host, because it assigns to a
`uint16_t` struct field without conversion.  For an offset in 0..32767 and a
flag in {0, 1}: on a big-endian host the first byte holds the flag in its top
bit and offset bits 14..8 and the second byte holds offset bits 7..0; on a
little-endian host the two bytes are the other way round.  The indirect
sequence number is the single byte after them, the last byte of the header. -/
theorem tx_offset_wire_format (be : Bool) (F : framer) (pb : Packetbuf) (offset flag : Nat)
    (ho : offset ≤ 32767) (hf : flag ≤ 1) :
    off_tx_offset = off_len + 1 ∧
    load (set_tx_offset be F offset flag pb) (packetbuf_hdrptr pb + F.length pb + off_tx_offset) =
      (if be then flag * 128 + offset / 256 else offset % 256) ∧
    load (set_tx_offset be F offset flag pb)
        (packetbuf_hdrptr pb + F.length pb + off_tx_offset + 1) =
      (if be then offset % 256 else flag * 128 + offset / 256) ∧
    off_seqno_ind = off_tx_offset + 2 ∧ sizeof_hdr = off_seqno_ind + 1 ∧
    get_ind_seqno F pb = load pb (packetbuf_hdrptr pb + F.length pb + off_seqno_ind) := by
  have hw := tx_word offset flag ho hf
  refine ⟨rfl, ?_, ?_, rfl, rfl, rfl⟩
  · simp only [set_tx_offset, hw, load_store16_first]
    cases be <;> simp <;> omega
  · simp only [set_tx_offset, hw, load_store16_second]
    cases be <;> simp <;> omega

theorem tx_offset_wire_format_witness :
    (0x0102 : Nat) ≤ 32767 ∧ (1 : Nat) ≤ 1 ∧
    load (set_tx_offset true (framer_three 3) 0x0102 1 ten_bytes)
        (packetbuf_hdrptr ten_bytes + (framer_three 3).length ten_bytes + off_tx_offset) =
      1 * 128 + 0x0102 / 256 ∧
    load (set_tx_offset false (framer_three 3) 0x0102 1 ten_bytes)
        (packetbuf_hdrptr ten_bytes + (framer_three 3).length ten_bytes + off_tx_offset) =
      0x0102 % 256 :=
  ⟨by decide, by decide,
   (tx_offset_wire_format true (framer_three 3) ten_bytes 0x0102 1 (by decide) (by decide)).2.1,
   (tx_offset_wire_format false (framer_three 3) ten_bytes 0x0102 1 (by decide) (by decide)).2.1⟩

/-- C17: after `set_ind_seqno_hdr(v)`, `get_ind_seqno` returns `v` and
`replace_seqno` sets the MAC sequence number attribute to `v`;
`set_ind_seqno_hdr` changes no other byte, so the tag, `len` and the
wake-offset field keep their values, and `set_tx_offset` changes only the two
bytes of its field, so the indirect sequence number, the tag and `len` keep
theirs.  The inner `length()`, an external function called by every accessor,
reports the same value before and after the write. -/
theorem ind_seqno_accessors (be : Bool) (F : framer) (pb : Packetbuf) (v offset flag : Nat)
    (h1 : F.length (set_ind_seqno_hdr F v pb) = F.length pb)
    (h2 : F.length (set_tx_offset be F offset flag pb) = F.length pb) :
    get_ind_seqno F (set_ind_seqno_hdr F v pb) = v ∧
    (replace_seqno F (set_ind_seqno_hdr F v pb)).attr_mac_seqno = v ∧
    (∀ a, a ≠ packetbuf_hdrptr pb + F.length pb + off_seqno_ind →
      load (set_ind_seqno_hdr F v pb) a = load pb a) ∧
    load (set_ind_seqno_hdr F v pb) (packetbuf_hdrptr pb + F.length pb + off_id) =
      load pb (packetbuf_hdrptr pb + F.length pb + off_id) ∧
    load (set_ind_seqno_hdr F v pb) (packetbuf_hdrptr pb + F.length pb + off_len) =
      load pb (packetbuf_hdrptr pb + F.length pb + off_len) ∧
    get_tx_offset be F (set_ind_seqno_hdr F v pb) = get_tx_offset be F pb ∧
    get_ind_seqno F (set_tx_offset be F offset flag pb) = get_ind_seqno F pb ∧
    load (set_tx_offset be F offset flag pb) (packetbuf_hdrptr pb + F.length pb + off_id) =
      load pb (packetbuf_hdrptr pb + F.length pb + off_id) ∧
    load (set_tx_offset be F offset flag pb) (packetbuf_hdrptr pb + F.length pb + off_len) =
      load pb (packetbuf_hdrptr pb + F.length pb + off_len) := by
  have hne : ∀ a, a ≠ packetbuf_hdrptr pb + F.length pb + off_seqno_ind →
      load (set_ind_seqno_hdr F v pb) a = load pb a := by
    intro a ha
    simp only [set_ind_seqno_hdr]
    exact load_store_ne _ _ _ _ ha
  refine ⟨?_, ?_, hne, ?_, ?_, ?_, ?_, ?_, ?_⟩
  · simp only [get_ind_seqno, h1, packetbuf_hdrptr]
    simp only [set_ind_seqno_hdr, packetbuf_hdrptr, load_store_eq]
  · simp only [replace_seqno, packetbuf_set_attr_mac_seqno, h1, packetbuf_hdrptr]
    simp only [set_ind_seqno_hdr, packetbuf_hdrptr, load_store_eq]
  · exact hne _ (by simp [off_id, off_seqno_ind])
  · exact hne _ (by simp [off_len, off_seqno_ind])
  · simp only [get_tx_offset, h1, packetbuf_hdrptr, load16]
    rw [hne _ (by simp [packetbuf_hdrptr, off_tx_offset, off_seqno_ind]),
      hne _ (by simp only [packetbuf_hdrptr, off_tx_offset, off_seqno_ind]; omega)]
  · simp only [get_ind_seqno, h2, packetbuf_hdrptr]
    simp only [set_tx_offset, packetbuf_hdrptr]
    exact load_store16_other _ _ _ _ _ (by simp only [off_tx_offset, off_seqno_ind]; omega)
      (by simp only [off_tx_offset, off_seqno_ind]; omega)
  · simp only [set_tx_offset]
    exact load_store16_other _ _ _ _ _ (by simp only [off_tx_offset, off_id]; omega)
      (by simp only [off_tx_offset, off_id]; omega)
  · simp only [set_tx_offset]
    exact load_store16_other _ _ _ _ _ (by simp only [off_tx_offset, off_len]; omega)
      (by simp only [off_tx_offset, off_len]; omega)

theorem ind_seqno_accessors_witness :
    (framer_three 3).length (set_ind_seqno_hdr (framer_three 3) 200 ten_bytes) =
      (framer_three 3).length ten_bytes ∧
    (framer_three 3).length (set_tx_offset false (framer_three 3) 1000 1 ten_bytes) =
      (framer_three 3).length ten_bytes ∧
    get_ind_seqno (framer_three 3) (set_ind_seqno_hdr (framer_three 3) 200 ten_bytes) = 200 ∧
    (replace_seqno (framer_three 3)
      (set_ind_seqno_hdr (framer_three 3) 200 ten_bytes)).attr_mac_seqno = 200 :=
  ⟨rfl, rfl,
   (ind_seqno_accessors false (framer_three 3) ten_bytes 200 1000 1 rfl rfl).1,
   (ind_seqno_accessors false (framer_three 3) ten_bytes 200 1000 1 rfl rfl).2.1⟩

/-! ## The header written by `create` and the failure paths -/

theorem hdralloc_fail (pb : Packetbuf) (n : Nat) (h : (packetbuf_hdralloc pb n).1 = 0) :
    (packetbuf_hdralloc pb n).2 = pb := by
  simp only [packetbuf_hdralloc] at h ⊢
  split
  · rfl
  · next hc => simp [hc] at h

theorem create_eq (F : framer) (pb : Packetbuf) :
    create F pb =
      if (packetbuf_hdralloc pb sizeof_hdr).1 = 0 then (FRAMER_FAILED, pb)
      else if (F.create (hdr_written pb)).1 < 0 then (FRAMER_FAILED, (F.create (hdr_written pb)).2)
      else ((F.create (hdr_written pb)).1 + sizeof_hdr, (F.create (hdr_written pb)).2) := by
  by_cases h : (packetbuf_hdralloc pb sizeof_hdr).1 = 0
  · simp only [create, h, if_true, hdralloc_fail pb _ h]
  · simp only [create, h, if_false, hdr_written]

theorem create_ok (F : framer) (pb : Packetbuf) (hok : 0 ≤ (create F pb).1) :
    (packetbuf_hdralloc pb sizeof_hdr).1 ≠ 0 ∧ 0 ≤ (F.create (hdr_written pb)).1 ∧
    (create F pb).1 = (F.create (hdr_written pb)).1 + sizeof_hdr ∧
    (create F pb).2 = (F.create (hdr_written pb)).2 := by
  have hff : ¬ (0 : Int) ≤ FRAMER_FAILED := by decide
  have he := create_eq F pb
  by_cases h1 : (packetbuf_hdralloc pb sizeof_hdr).1 = 0
  · rw [he, if_pos h1] at hok
    exact absurd hok hff
  · by_cases h2 : (F.create (hdr_written pb)).1 < 0
    · rw [he, if_neg h1, if_pos h2] at hok
      exact absurd hok hff
    · rw [if_neg h1, if_neg h2] at he
      rw [he]
      exact ⟨h1, not_lt.1 h2, rfl, rfl⟩

theorem hdr_written_geometry (pb : Packetbuf) (h : (packetbuf_hdralloc pb sizeof_hdr).1 ≠ 0) :
    (hdr_written pb).hdrlen = pb.hdrlen + sizeof_hdr ∧ (hdr_written pb).bufptr = pb.bufptr ∧
    (hdr_written pb).buflen = pb.buflen ∧
    (hdr_written pb).addr_receiver = pb.addr_receiver ∧
    (hdr_written pb).packetbuf off_id = CONTIKIMAC_ID ∧
    (hdr_written pb).packetbuf off_len = 0 ∧
    (hdr_written pb).packetbuf off_tx_offset = 0 ∧
    (hdr_written pb).packetbuf (off_tx_offset + 1) = 0 ∧
    (hdr_written pb).packetbuf off_seqno_ind = pb.packetbuf off_seqno_ind ∧
    ∀ i, i < packetbuf_totlen pb →
      (hdr_written pb).packetbuf (sizeof_hdr + i) = pb.packetbuf i := by
  have hc : ¬ (sizeof_hdr + packetbuf_totlen pb > PACKETBUF_SIZE) := by
    intro hc
    apply h
    simp [packetbuf_hdralloc, hc]
  have hr : packetbuf_hdralloc pb sizeof_hdr =
      (1, { pb with
            packetbuf := fun i =>
              if sizeof_hdr ≤ i ∧ i < sizeof_hdr + packetbuf_totlen pb then
                pb.packetbuf (i - sizeof_hdr)
              else pb.packetbuf i
            hdrlen := pb.hdrlen + sizeof_hdr }) := by
    simp only [packetbuf_hdralloc, hc, if_false]
  simp only [hdr_written]
  rw [hr]
  simp only [store, packetbuf_hdrptr, off_id, off_len, off_tx_offset, off_seqno_ind, sizeof_hdr]
  refine ⟨trivial, trivial, trivial, trivial, by simp, by simp, by simp, by simp, by simp, ?_⟩
  intro i hi
  have a1 : ¬ (5 + i = 0 + 2 + 1) := by omega
  have a2 : ¬ (5 + i = 0 + 2) := by omega
  have a3 : ¬ (5 + i = 0 + 1) := by omega
  have a4 : ¬ (5 + i = 0 + 0) := by omega
  have a5 : 5 ≤ 5 + i ∧ 5 + i < 5 + packetbuf_totlen pb := by omega
  simp only [a1, a2, a3, a4, if_false, if_pos a5, Nat.add_sub_cancel_left]

set_option maxRecDepth 100000 in
/-- C13, refuted as stated: `create` with a three-byte inner header succeeds on
the ten-byte frame with result 8, the tag `0xCC` is at offset 3, and the
indirect-sequence byte of this layer's header is 5, the payload byte that the
buffer held at offset 4 before, not 0. -/
theorem create_leaves_seqno_byte :
    (create (framer_three 3) ten_bytes).1 = 8 ∧
    load (create (framer_three 3) ten_bytes).2 (3 + off_id) = CONTIKIMAC_ID ∧
    load (create (framer_three 3) ten_bytes).2 (3 + off_seqno_ind) = 5 ∧
    load ten_bytes off_seqno_ind = 5 := by
  decide

/-- C13, amended: when `create` succeeds and the inner framer's `create` put `n`
bytes in front of the frame, this layer's header, the five bytes after the
inner header, has tag `0xCC`, `len` 0 and both bytes of the wake-offset field 0,
whatever the buffer contained before; the indirect-sequence byte is not
written: it holds the byte that was at offset 4 of the buffer before the
call. -/
theorem create_header (F : framer) (pb : Packetbuf) (n : Nat)
    (hok : 0 ≤ (create F pb).1)
    (hprep : prepends n (hdr_written pb) (F.create (hdr_written pb)).2) :
    load (create F pb).2 (n + off_id) = CONTIKIMAC_ID ∧
    load (create F pb).2 (n + off_len) = 0 ∧
    load (create F pb).2 (n + off_tx_offset) = 0 ∧
    load (create F pb).2 (n + off_tx_offset + 1) = 0 ∧
    (∀ be, load16 be (create F pb).2 (n + off_tx_offset) = 0) ∧
    load (create F pb).2 (n + off_seqno_ind) = load pb off_seqno_ind := by
  obtain ⟨h1, _, _, h4⟩ := create_ok F pb hok
  obtain ⟨g1, g2, g3, _, g5, g6, g7, g8, g9, _⟩ := hdr_written_geometry pb h1
  obtain ⟨_, _, _, p4⟩ := hprep
  have ht : packetbuf_totlen (hdr_written pb) = sizeof_hdr + packetbuf_totlen pb := by
    simp only [packetbuf_totlen, packetbuf_hdrlen, packetbuf_datalen, g1, g2, g3]
    omega
  have hb : ∀ k, k < sizeof_hdr →
      load (create F pb).2 (n + k) = (hdr_written pb).packetbuf k := by
    intro k hk
    rw [h4]
    exact p4 k (by rw [ht]; omega)
  have e0 := hb off_id (by decide)
  have e1 := hb off_len (by decide)
  have e2 := hb off_tx_offset (by decide)
  have e3 := hb (off_tx_offset + 1) (by decide)
  have e4 := hb off_seqno_ind (by decide)
  rw [g5] at e0
  rw [g6] at e1
  rw [g7] at e2
  rw [g8] at e3
  rw [g9] at e4
  refine ⟨e0, e1, e2, e3, ?_, e4⟩
  intro be
  have e3' : load (create F pb).2 (n + off_tx_offset + 1) = 0 := e3
  cases be <;> simp [load16, e2, e3']

theorem create_header_witness :
    0 ≤ (create (framer_three 3) ten_bytes).1 ∧
    prepends 3 (hdr_written ten_bytes) ((framer_three 3).create (hdr_written ten_bytes)).2 ∧
    load (create (framer_three 3) ten_bytes).2 (3 + off_id) = CONTIKIMAC_ID ∧
    load (create (framer_three 3) ten_bytes).2 (3 + off_seqno_ind) =
      load ten_bytes off_seqno_ind :=
  have hp : prepends 3 (hdr_written ten_bytes)
      ((framer_three 3).create (hdr_written ten_bytes)).2 :=
    (framer_three_create 3 (hdr_written ten_bytes) (by decide)).2
  ⟨by decide, hp,
   (create_header (framer_three 3) ten_bytes 3 (by decide) hp).1,
   (create_header (framer_three 3) ten_bytes 3 (by decide) hp).2.2.2.2.2⟩

/-- C14: `create_and_secure` returns `FRAMER_FAILED` when header space cannot be
reserved, when the inner framer's `create` fails and when the security hook
reports failure.  In each case the sequence-number state (slots, `seqno_count`
and `bcast_seqno`) is the one before the call, and the frame is returned as the
failing step left it (unchanged, as the inner `create` left it, as the hook
left it), so neither padding nor a sequence number was applied. -/
theorem create_and_secure_failure (F : framer) (L : llsec_driver) (pb : Packetbuf)
    (st : seqno_state) :
    ((packetbuf_hdralloc pb sizeof_hdr).1 = 0 →
      create_and_secure F L (pb, st) = some (FRAMER_FAILED, pb, st)) ∧
    ((packetbuf_hdralloc pb sizeof_hdr).1 ≠ 0 → (F.create (hdr_written pb)).1 < 0 →
      create_and_secure F L (pb, st) =
        some (FRAMER_FAILED, (F.create (hdr_written pb)).2, st)) ∧
    (0 ≤ (create F pb).1 → (L.on_frame_created (packetbuf_compact (create F pb).2)).1 = 0 →
      create_and_secure F L (pb, st) =
        some (FRAMER_FAILED, (L.on_frame_created (packetbuf_compact (create F pb).2)).2, st)) := by
  have hff : FRAMER_FAILED < 0 := by decide
  refine ⟨?_, ?_, ?_⟩
  · intro h
    have hc : create F pb = (FRAMER_FAILED, pb) := by rw [create_eq, if_pos h]
    simp only [create_and_secure, hc, hff, if_true]
  · intro h1 h2
    have hc : create F pb = (FRAMER_FAILED, (F.create (hdr_written pb)).2) := by
      rw [create_eq, if_neg h1, if_pos h2]
    simp only [create_and_secure, hc, hff, if_true]
  · intro h1 h2
    have h1n : ¬ (create F pb).1 < 0 := not_lt.2 h1
    simp only [create_and_secure, h1n, if_false, h2, if_true]

set_option maxRecDepth 100000 in
theorem create_and_secure_failure_witness :
    (packetbuf_hdralloc full_frame sizeof_hdr).1 = 0 ∧
    create_and_secure framer_none nullsec (full_frame, two_tracked) =
      some (FRAMER_FAILED, full_frame, two_tracked) ∧
    (packetbuf_hdralloc ten_bytes sizeof_hdr).1 ≠ 0 ∧
    (framer_failing.create (hdr_written ten_bytes)).1 < 0 ∧
    create_and_secure framer_failing nullsec (ten_bytes, two_tracked) =
      some (FRAMER_FAILED, (framer_failing.create (hdr_written ten_bytes)).2, two_tracked) ∧
    0 ≤ (create framer_none ten_bytes).1 ∧
    (llsec_failing.on_frame_created (packetbuf_compact (create framer_none ten_bytes).2)).1 = 0 ∧
    create_and_secure framer_none llsec_failing (ten_bytes, two_tracked) =
      some (FRAMER_FAILED,
        (llsec_failing.on_frame_created (packetbuf_compact (create framer_none ten_bytes).2)).2,
        two_tracked) :=
  ⟨by decide,
   (create_and_secure_failure framer_none nullsec full_frame two_tracked).1 (by decide),
   by decide, by decide,
   (create_and_secure_failure framer_failing nullsec ten_bytes two_tracked).2.1
     (by decide) (by decide),
   by decide, by decide,
   (create_and_secure_failure framer_none llsec_failing ten_bytes two_tracked).2.2
     (by decide) (by decide)⟩

/-! ## The outcomes of `parse` -/

theorem parse_eq (F : framer) (pb : Packetbuf) :
    parse F pb =
      if (F.parse pb).1 < 0 ∨
          load (F.parse pb).2 (packetbuf_dataptr (F.parse pb).2) ≠ CONTIKIMAC_ID ∨
          (F.parse pb).2.buflen < sizeof_hdr then
        (FRAMER_FAILED, (F.parse pb).2)
      else
        ((F.parse pb).1 + sizeof_hdr,
         store
           { (F.parse pb).2 with
             bufptr := (F.parse pb).2.bufptr + sizeof_hdr
             buflen := load (F.parse pb).2 (packetbuf_dataptr (F.parse pb).2 + off_len) }
           (packetbuf_dataptr (F.parse pb).2 + off_len) 0) := by
  by_cases h1 : (F.parse pb).1 < 0
  · simp [parse, h1]
  · by_cases h2 : load (F.parse pb).2 (packetbuf_dataptr (F.parse pb).2) = CONTIKIMAC_ID
    · by_cases h3 : (F.parse pb).2.buflen < sizeof_hdr
      · simp [parse, h1, h2, h3, packetbuf_hdrreduce, off_id]
      · simp [parse, h1, h2, h3, packetbuf_hdrreduce, off_id, packetbuf_set_datalen, load,
          store]
    · simp [parse, h1, h2, off_id]

/-- C15: `parse` returns `FRAMER_FAILED` exactly when the inner framer's `parse`
fails, or the first remaining byte is not `0xCC`, or fewer data bytes remain
than the five bytes of this layer's header.  Otherwise it returns the inner
framer's result plus 5, the data start has moved 5 bytes forward (the header is
removed from the front of the data), the data length is the value of the `len`
byte, and the only byte written is the `len` byte, which is cleared. -/
theorem parse_fails_iff (F : framer) (pb : Packetbuf) :
    ((parse F pb).1 = FRAMER_FAILED ↔
      ((F.parse pb).1 < 0 ∨
        load (F.parse pb).2 (packetbuf_dataptr (F.parse pb).2) ≠ CONTIKIMAC_ID ∨
        (F.parse pb).2.buflen < sizeof_hdr)) ∧
    (¬ ((F.parse pb).1 < 0 ∨
        load (F.parse pb).2 (packetbuf_dataptr (F.parse pb).2) ≠ CONTIKIMAC_ID ∨
        (F.parse pb).2.buflen < sizeof_hdr) →
      (parse F pb).1 = (F.parse pb).1 + sizeof_hdr ∧
      packetbuf_dataptr (parse F pb).2 = packetbuf_dataptr (F.parse pb).2 + sizeof_hdr ∧
      (parse F pb).2.hdrlen = (F.parse pb).2.hdrlen ∧
      packetbuf_datalen (parse F pb).2 =
        load (F.parse pb).2 (packetbuf_dataptr (F.parse pb).2 + off_len) ∧
      load (parse F pb).2 (packetbuf_dataptr (F.parse pb).2 + off_len) = 0 ∧
      ∀ a, a ≠ packetbuf_dataptr (F.parse pb).2 + off_len →
        load (parse F pb).2 a = load (F.parse pb).2 a) := by
  have he := parse_eq F pb
  constructor
  · constructor
    · intro h
      by_contra hn
      rw [he, if_neg hn] at h
      have h1 : ¬ (F.parse pb).1 < 0 := fun hh => hn (Or.inl hh)
      simp only [FRAMER_FAILED, sizeof_hdr] at h
      omega
    · intro h
      rw [he, if_pos h]
  · intro hn
    rw [he, if_neg hn]
    refine ⟨rfl, ?_, rfl, rfl, ?_, ?_⟩
    · simp only [packetbuf_dataptr, packetbuf_hdrlen, store]
      omega
    · simp [load, store]
    · intro a ha
      simp [load, store, ha]

/-- C19, refuted as stated: a received frame of five bytes that is this layer's
header alone, with `len` byte 200, is parsed successfully (result 5); no data
byte remains after the header, yet the payload length is set to 200. -/
theorem parse_trusts_len_byte :
    (parse framer_none lying_frame).1 = 5 ∧
    (framer_none.parse lying_frame).2.buflen - sizeof_hdr = 0 ∧
    packetbuf_datalen (parse framer_none lying_frame).2 = 200 := by
  decide

/-- C19, amended: when `parse` succeeds, the payload length it sets is exactly
the value of the `len` byte of the received header, whatever number of data
bytes remained after the headers. -/
theorem parse_restores_len_byte (F : framer) (pb : Packetbuf) (hok : 0 ≤ (parse F pb).1) :
    packetbuf_datalen (parse F pb).2 =
      load (F.parse pb).2 (packetbuf_dataptr (F.parse pb).2 + off_len) := by
  have he := parse_eq F pb
  by_cases hn : (F.parse pb).1 < 0 ∨
      load (F.parse pb).2 (packetbuf_dataptr (F.parse pb).2) ≠ CONTIKIMAC_ID ∨
      (F.parse pb).2.buflen < sizeof_hdr
  · rw [he, if_pos hn] at hok
    have hff : ¬ (0 : Int) ≤ FRAMER_FAILED := by decide
    exact absurd hok hff
  · rw [he, if_neg hn]
    rfl

theorem parse_restores_len_byte_witness :
    0 ≤ (parse framer_none lying_frame).1 ∧
    packetbuf_datalen (parse framer_none lying_frame).2 =
      load (framer_none.parse lying_frame).2
        (packetbuf_dataptr (framer_none.parse lying_frame).2 + off_len) :=
  ⟨by decide, parse_restores_len_byte framer_none lying_frame (by decide)⟩

/-! ## Array bounds and header location -/

/-- C18: every sequence of `set_ind_seqno` calls from the initial state
succeeds without an access outside `sent_seqnos`, and in the state it reaches
`seqno_count` is at most 16 and the array has its 16 slots; from that state the
lookup loop ends without leaving the array, every slot it reports lies in
0..15, the shift loop (entered only when `seqno_count` is not 16) ends without
leaving the array, and so does a further call for any frame. -/
theorem cache_bounded (F : framer) (pbs : List Packetbuf) :
    ∃ outs st, run_set_ind_seqno F pbs seqno_init = some (outs, st) ∧
      st.seqno_count ≤ MAX_N_SEQNOS ∧ st.sent_seqnos.length = MAX_N_SEQNOS ∧
      (∀ r, ∃ res, lookup_loop r st.sent_seqnos st.seqno_count 0 = some res ∧
        ∀ k, res = some k → k < MAX_N_SEQNOS) ∧
      (st.seqno_count ≠ MAX_N_SEQNOS →
        ∃ arr, shift_loop st.sent_seqnos st.seqno_count = some arr ∧
          arr.length = MAX_N_SEQNOS) ∧
      ∀ pb, ∃ res, set_ind_seqno F (pb, st) = some res := by
  obtain ⟨outs, st, h, ⟨hlen, hcnt⟩, _, _⟩ := seqno_inv_run F pbs seqno_init seqno_inv_init
  refine ⟨outs, st, h, hcnt, hlen, ?_, ?_, ?_⟩
  · intro r
    obtain ⟨res, hres⟩ := lookup_loop_total r st.sent_seqnos st.seqno_count 0 (by omega)
    refine ⟨res, hres, ?_⟩
    intro k hk
    subst hk
    obtain ⟨_, h2, _, _⟩ := lookup_loop_found _ _ _ _ _ hres
    omega
  · intro hne
    have hlt : st.seqno_count < st.sent_seqnos.length := by omega
    refine ⟨_, shift_loop_eq _ _ hlt, ?_⟩
    simp only [List.length_append, List.length_take, List.length_drop]
    omega
  · intro pb
    obtain ⟨v, st1, hv⟩ := set_ind_seqno_total F pb st ⟨hlen, hcnt⟩
    exact ⟨_, hv⟩

end ContikimacFramer
